import Mathlib

/-!
Verification development for the claude-memory cloud sync repository.

Shallow embedding of the core of `src/cloud/client.py`, `src/cloud/sync.py`
and `src/cloud/summarize.py`:

* the remote store (tables `memories`, `deletion_log`, `sync_state`,
  `memory_graph`) is a `Cloud` value; Supabase upserts/updates/inserts become
  pure functions on it;
* the local SQLite store is a `LocalDB` value (rows, deserialized embeddings,
  graph edges); SQL queries become list filters/sorts;
* Python floats used as timestamps become `Int`; embedding coordinates and
  similarity thresholds become `ℚ`;
* remote-backend failures, which the source observes as caught exceptions,
  become explicit boolean parameters/predicates (`bad`, `markFails`,
  `localReadFails`) at exactly the call sites where the source has
  `try`/`except`.
-/

/-- Metadata values (the JSON dict payloads the source passes around;
opaque to every operation modelled here). -/
inductive MetaV where
  | str : String → MetaV
  | bool : Bool → MetaV
  | nat : Nat → MetaV
  | list : List String → MetaV
deriving DecidableEq

abbrev Metadata := List (String × MetaV)

/-- One row of the remote `memories` table (`client.py` schema: payload fields
plus the remote-only `source_device`, `synced_at`, `local_deleted`,
`is_summary`, `summarized_from`). -/
structure RemoteMem where
  content_hash : String
  content : String
  tags : Option String
  memory_type : Option String
  metadata : Metadata
  created_at : Option Int
  updated_at : Option Int
  source_device : String
  synced_at : String
  local_deleted : Bool
  is_summary : Bool
  summarized_from : Option (List String)
  embedding : Option (List ℚ)
deriving DecidableEq

/-- One row of the remote `deletion_log` table
(`client.py` `mark_locally_deleted`). -/
structure DeletionLogEntry where
  content_hash : String
  original_content : String
  original_tags : Option String
  original_type : Option String
  original_metadata : Metadata
  reason : String
  device_name : String
deriving DecidableEq

/-- One row of the remote `sync_state` table, keyed by `device_name`. -/
structure SyncStateRow where
  device_name : String
  last_sync_at : String
  last_sync_updated_at : Int
  memories_synced : Int
  status : String
deriving DecidableEq

/-- One row of the `memory_graph` table, keyed by (source_hash, target_hash). -/
structure GraphEdge where
  source_hash : String
  target_hash : String
  similarity : ℚ
  relationship_type : String
  metadata : Metadata
deriving DecidableEq

/-- The whole remote store. -/
structure Cloud where
  memories : List RemoteMem
  deletion_log : List DeletionLogEntry
  sync_state : List SyncStateRow
  memory_graph : List GraphEdge
deriving DecidableEq

/-- One row of the local SQLite `memories` table as read by
`sync._get_local_memories` (metadata already JSON-parsed). -/
structure LocalMem where
  content_hash : String
  content : String
  tags : Option String
  memory_type : Option String
  metadata : Metadata
  created_at : Option Int
  updated_at : Option Int
  deleted_at : Option Int
deriving DecidableEq

/-- A local graph edge (`memory_graph` table of the local store). -/
structure LocalEdge where
  source_hash : String
  target_hash : String
  similarity : ℚ
  relationship_type : String
  metadata : Metadata
deriving DecidableEq

/-- The local store: memory rows, the sqlite-vec embeddings side table
(already deserialized from float32 blobs to vectors), and graph edges. -/
structure LocalDB where
  mems : List LocalMem
  embs : List (String × List ℚ)
  graph : List LocalEdge
deriving DecidableEq

/-- The dict `sync_once` / `upsert_memories_batch` receive per memory
(before the remote row is built). -/
structure MemIn where
  content_hash : String
  content : String
  tags : Option String
  memory_type : Option String
  metadata : Metadata
  created_at : Option Int
  updated_at : Option Int
  embedding : Option (List ℚ)
deriving DecidableEq

/-- The `data`/`row` dict sent to a Supabase `memories` upsert
(`client.upsert_memory` / `client.upsert_memories_batch`).
`embedding = none` models the key being absent from the payload. -/
structure UpsertPayload where
  content_hash : String
  content : String
  tags : Option String
  memory_type : Option String
  metadata : Metadata
  created_at : Option Int
  updated_at : Option Int
  source_device : String
  synced_at : String
  local_deleted : Bool
  embedding : Option (List ℚ)
deriving DecidableEq

/-- Effect of one Postgres upsert resolving `on_conflict=content_hash` on a
single row: payload columns overwrite; columns absent from the payload
(`embedding` when not supplied, `is_summary`, `summarized_from`) keep the
previous row's values, or the schema default on a fresh insert. -/
def applyPayload (old : Option RemoteMem) (p : UpsertPayload) : RemoteMem :=
  { content_hash := p.content_hash
    content := p.content
    tags := p.tags
    memory_type := p.memory_type
    metadata := p.metadata
    created_at := p.created_at
    updated_at := p.updated_at
    source_device := p.source_device
    synced_at := p.synced_at
    local_deleted := p.local_deleted
    is_summary := match old with | some o => o.is_summary | none => false
    summarized_from := match old with | some o => o.summarized_from | none => none
    embedding :=
      match p.embedding with
      | some e => some e
      | none => match old with | some o => o.embedding | none => none }

/-- `table("memories").upsert(data, on_conflict="content_hash")`:
replace the row with the same hash, or append a fresh one. -/
def upsertMem (db : List RemoteMem) (p : UpsertPayload) : List RemoteMem :=
  if db.any (fun r => r.content_hash == p.content_hash) then
    db.map (fun r => if r.content_hash = p.content_hash then applyPayload (some r) p else r)
  else
    db ++ [applyPayload none p]

/-- `client.upsert_memory` (single-row upsert, `local_deleted` always `False`
in the payload, embedding key present only when an embedding was given).
Deterministic success: the source returns `False` only on a backend
exception. -/
def upsert_memory (device now : String) (content_hash content : String)
    (tags memory_type : Option String) (metadata : Option Metadata)
    (created_at updated_at : Option Int) (embedding : Option (List ℚ))
    (cloud : Cloud) : Cloud × Bool :=
  let data : UpsertPayload :=
    { content_hash := content_hash
      content := content
      tags := tags
      memory_type := memory_type
      metadata := metadata.getD []
      created_at := created_at
      updated_at := updated_at
      source_device := device
      synced_at := now
      local_deleted := false
      embedding := embedding }
  ({ cloud with memories := upsertMem cloud.memories data }, true)

/-- Row built by `upsert_memories_batch` from one input dict
(`local_deleted: False`; `if mem.get("embedding"):` keeps the key only for a
truthy, i.e. non-empty, vector). -/
def rowOf (device now : String) (mem : MemIn) : UpsertPayload :=
  { content_hash := mem.content_hash
    content := mem.content
    tags := mem.tags
    memory_type := mem.memory_type
    metadata := mem.metadata
    created_at := mem.created_at
    updated_at := mem.updated_at
    source_device := device
    synced_at := now
    local_deleted := false
    embedding :=
      match mem.embedding with
      | some e => if e.isEmpty then none else some e
      | none => none }

/-- Chunked loop of `upsert_memories_batch`: chunks of 50; a chunk whose
wholesale upsert fails (models the backend rejecting the statement, which
happens exactly when the chunk contains a row satisfying `bad`) is retried
one row at a time; a per-row upsert fails exactly on a `bad` row.
Structured with fuel (`fuel ≥ rows.length` at every call site) so the
function is structurally recursive. -/
def upsertChunksGo (bad : UpsertPayload → Bool) :
    Nat → List RemoteMem → List UpsertPayload → List RemoteMem × Nat × Nat
  | _, db, [] => (db, 0, 0)
  | 0, db, _ :: _ => (db, 0, 0)
  | fuel + 1, db, r :: rs =>
    let rows := r :: rs
    let chunk := rows.take 50
    let rest := rows.drop 50
    if chunk.any bad then
      let db1 := chunk.foldl (fun d p => if bad p then d else upsertMem d p) db
      let s1 := (chunk.filter (fun p => !bad p)).length
      let f1 := (chunk.filter bad).length
      let out := upsertChunksGo bad fuel db1 rest
      (out.1, s1 + out.2.1, f1 + out.2.2)
    else
      let db1 := chunk.foldl (fun d p => upsertMem d p) db
      let out := upsertChunksGo bad fuel db1 rest
      (out.1, chunk.length + out.2.1, out.2.2)

/-- `client.upsert_memories_batch`: build the payload rows, process them in
chunks of 50, return the updated store with (success_count, fail_count). -/
def upsert_memories_batch (device now : String) (bad : UpsertPayload → Bool)
    (memories : List MemIn) (cloud : Cloud) : Cloud × Nat × Nat :=
  let batch := memories.map (rowOf device now)
  let out := upsertChunksGo bad batch.length cloud.memories batch
  ({ cloud with memories := out.1 }, out.2.1, out.2.2)

/-- `client.mark_locally_deleted`. The three booleans model a backend
exception at each of the three remote calls, in program order: the
`select`, the `deletion_log` insert (only executed when the select returned
a row) and the `update`. An exception aborts the remaining calls and makes
the function return `false`, leaving earlier effects in place. -/
def mark_locally_deleted (device : String) (failSelect failInsert failUpdate : Bool)
    (cloud : Cloud) (content_hash reason : String) : Cloud × Bool :=
  if failSelect then (cloud, false)
  else
    let found := cloud.memories.filter (fun r => r.content_hash == content_hash)
    let markAll : List RemoteMem → List RemoteMem := fun db =>
      db.map (fun r => if r.content_hash = content_hash then { r with local_deleted := true } else r)
    match found with
    | [] =>
      if failUpdate then (cloud, false)
      else ({ cloud with memories := markAll cloud.memories }, true)
    | original :: _ =>
      if failInsert then (cloud, false)
      else
        let entry : DeletionLogEntry :=
          { content_hash := content_hash
            original_content := original.content
            original_tags := original.tags
            original_type := original.memory_type
            original_metadata := original.metadata
            reason := reason
            device_name := device }
        let cloud1 := { cloud with deletion_log := cloud.deletion_log ++ [entry] }
        if failUpdate then (cloud1, false)
        else ({ cloud1 with memories := markAll cloud1.memories }, true)

/-- Comparator for `ORDER BY created_at` on the remote store
(ascending, NULLS LAST). -/
def createdLE (a b : RemoteMem) : Bool :=
  match a.created_at, b.created_at with
  | none, none => true
  | none, some _ => false
  | some _, none => true
  | some x, some y => x ≤ y

/-- `client.get_all_memories`: paged full scan ordered by `created_at`
(net effect: the whole table, sorted, optionally dropping tombstones). -/
def get_all_memories (cloud : Cloud) (include_deleted : Bool) : List RemoteMem :=
  let base := if include_deleted then cloud.memories
              else cloud.memories.filter (fun m => !m.local_deleted)
  List.insertionSort (fun a b => createdLE a b = true) base

/-- `client.get_sync_state`: the device's row, or the `never_synced`
default when absent. -/
def get_sync_state (cloud : Cloud) (device : String) : SyncStateRow :=
  match cloud.sync_state.find? (fun r => r.device_name == device) with
  | some r => r
  | none =>
    { device_name := device
      last_sync_at := ""
      last_sync_updated_at := 0
      memories_synced := 0
      status := "never_synced" }

/-- `client.update_sync_state`: upsert keyed by `device_name`,
`last_sync_at` set to the current wall clock (`now`). -/
def update_sync_state (cloud : Cloud) (device now : String)
    (last_sync_updated_at : Int) (memories_synced : Int) (status : String) : Cloud :=
  let row : SyncStateRow :=
    { device_name := device
      last_sync_at := now
      last_sync_updated_at := last_sync_updated_at
      memories_synced := memories_synced
      status := status }
  if cloud.sync_state.any (fun r => r.device_name == device) then
    { cloud with sync_state :=
        cloud.sync_state.map (fun r => if r.device_name = device then row else r) }
  else
    { cloud with sync_state := cloud.sync_state ++ [row] }

/-- `client.upsert_graph_edge` effect on the `memory_graph` table
(upsert keyed by the (source, target) pair). -/
def upsertEdge (g : List GraphEdge) (e : GraphEdge) : List GraphEdge :=
  if g.any (fun x => x.source_hash == e.source_hash && x.target_hash == e.target_hash) then
    g.map (fun x =>
      if x.source_hash = e.source_hash ∧ x.target_hash = e.target_hash then e else x)
  else
    g ++ [e]

/-- SQL filter of `sync._get_local_memories`:
`updated_at > ? OR (updated_at IS NULL AND created_at > ?)`
(NULL comparisons are false in SQL). -/
def changedCond (since : Int) (m : LocalMem) : Bool :=
  match m.updated_at with
  | some u => since < u
  | none =>
    match m.created_at with
    | some c => since < c
    | none => false

/-- Sort key `COALESCE(updated_at, created_at)` of `_get_local_memories`
(rows where both are NULL never pass the filter; 0 is a dummy). -/
def coalesceTs (m : LocalMem) : Int :=
  match m.updated_at with
  | some u => u
  | none => m.created_at.getD 0

/-- `sync._get_local_memories`: rows changed strictly after the watermark,
ordered ascending by `COALESCE(updated_at, created_at)` (a stable sort
models the deterministic order of a single read). -/
def _get_local_memories (mems : List LocalMem) (since : Int) : List LocalMem :=
  List.insertionSort (fun a b => coalesceTs a ≤ coalesceTs b) (mems.filter (changedCond since))

/-- `sync._get_locally_deleted`: hashes of all rows with a local tombstone
(`deleted_at IS NOT NULL`); takes no watermark. -/
def _get_locally_deleted (mems : List LocalMem) : List String :=
  (mems.filter (fun m => m.deleted_at.isSome)).map (fun m => m.content_hash)

/-- `sync._get_local_embeddings`: per-hash lookup in the (deserialized)
sqlite-vec side table, restricted to the requested hashes; empty vectors are
dropped (`if emb_row and emb_row[0]` / truthiness of the result). -/
def _get_local_embeddings (embs : List (String × List ℚ)) (hashes : List String)
    (h : String) : Option (List ℚ) :=
  if hashes.contains h then
    match embs.lookup h with
    | some e => if e.isEmpty then none else some e
    | none => none
  else none

/-- The Python expression `mem.get("updated_at") or mem.get("created_at") or 0`
used by `sync_once` to track the latest change timestamp (`or` falls through
on `None` and on the falsy value `0`). -/
def pyTs (m : LocalMem) : Int :=
  match m.updated_at with
  | some u => if u ≠ 0 then u else m.created_at.getD 0
  | none => m.created_at.getD 0

/-- Statistics dict returned by `sync_once`. `duration_ms` is wall-clock
time, modelled as 0. -/
structure SyncStats where
  new_memories : Nat
  updated_memories : Nat
  deleted_marked : Nat
  graph_edges : Nat
  errors : Nat
  duration_ms : Nat
  error_message : Option String
deriving DecidableEq

/-- Accumulator of the per-memory loop of `sync_once` (the remote store
threaded through tombstone marks, the upsert batch under construction,
the running `max_updated_at`, and `deleted_marked`). -/
structure BuildAcc where
  cloud : Cloud
  deleted_marked : Nat
  batch : List MemIn
  maxUpd : Int
deriving DecidableEq

/-- Batch dict built by `sync_once` for one changed local row (embedding
attached when the local store has one for its hash). -/
def memInOf (embOf : String → Option (List ℚ)) (mem : LocalMem) : MemIn :=
  { content_hash := mem.content_hash
    content := mem.content
    tags := mem.tags
    memory_type := mem.memory_type
    metadata := mem.metadata
    created_at := mem.created_at
    updated_at := mem.updated_at
    embedding := embOf mem.content_hash }

/-- One iteration of the `for mem in memories` loop of `sync_once`:
tombstoned rows are routed to `mark_locally_deleted` (counted on success)
and skipped; other rows join the batch (with their embedding when present)
and bump `max_updated_at`. -/
def syncBuildStep (device : String) (embOf : String → Option (List ℚ))
    (markFails : String → Bool) (acc : BuildAcc) (mem : LocalMem) : BuildAcc :=
  if mem.deleted_at.isSome then
    let out := mark_locally_deleted device (markFails mem.content_hash) false false
      acc.cloud mem.content_hash "local_soft_delete"
    { acc with
      cloud := out.1
      deleted_marked := acc.deleted_marked + (if out.2 then 1 else 0) }
  else
    let upd := pyTs mem
    { acc with
      batch := acc.batch ++ [memInOf embOf mem]
      maxUpd := if acc.maxUpd < upd then upd else acc.maxUpd }

/-- Graph propagation step of `sync_once` (`upsert_graph_edge` per local
edge; deterministic success, each counted). -/
def syncGraphStep (acc : Cloud × Nat) (e : LocalEdge) : Cloud × Nat :=
  let edge : GraphEdge :=
    { source_hash := e.source_hash
      target_hash := e.target_hash
      similarity := e.similarity
      relationship_type := e.relationship_type
      metadata := e.metadata }
  ({ acc.1 with memory_graph := upsertEdge acc.1.memory_graph edge }, acc.2 + 1)

/-- Tombstone re-scan of the empty-changed-set branch of `sync_once`:
`mark_locally_deleted` per hash, counting successes. -/
def syncMarkAllStep (device : String) (markFails : String → Bool)
    (acc : Cloud × Nat) (h : String) : Cloud × Nat :=
  let out := mark_locally_deleted device (markFails h) false false acc.1 h "local_soft_delete"
  (out.1, acc.2 + (if out.2 then 1 else 0))

/-- `sync.sync_once`, one reconciliation cycle.

Parameters modelling the effectful environment:
* `localReadFails`: the local-store query `_get_local_memories` raises
  (e.g. locked/corrupt database) — the one realistic raiser inside the
  cycle-level `try`, every remote-gateway call catching its own errors;
  the handler records the error and writes sync state `(0, 0, error:...)`;
* `bad`: rows the remote backend rejects on upsert;
* `markFails`: hashes whose `mark_locally_deleted` fails (modelled as the
  initial select raising, so the call has no effect and returns `False`). -/
def sync_once (device now : String) (db : LocalDB) (cloud : Cloud)
    (localReadFails : Bool) (bad : UpsertPayload → Bool)
    (markFails : String → Bool) : Cloud × SyncStats :=
  let stats0 : SyncStats :=
    { new_memories := 0, updated_memories := 0, deleted_marked := 0
      graph_edges := 0, errors := 0, duration_ms := 0, error_message := none }
  let st := get_sync_state cloud device
  let last_sync := st.last_sync_updated_at
  let cloud1 := update_sync_state cloud device now last_sync st.memories_synced "syncing"
  if localReadFails then
    let cloud2 := update_sync_state cloud1 device now 0 0 "error: local read failed"
    (cloud2, { stats0 with errors := 1, error_message := some "local read failed" })
  else
    let memories := _get_local_memories db.mems last_sync
    if memories.isEmpty then
      let out := (_get_locally_deleted db.mems).foldl (syncMarkAllStep device markFails) (cloud1, 0)
      let cloudF := update_sync_state out.1 device now last_sync st.memories_synced "idle"
      (cloudF, { stats0 with deleted_marked := out.2 })
    else
      let hashes := memories.map (fun m => m.content_hash)
      let embOf := _get_local_embeddings db.embs hashes
      let acc := memories.foldl (syncBuildStep device embOf markFails)
        { cloud := cloud1, deleted_marked := 0, batch := [], maxUpd := last_sync }
      let up :=
        if acc.batch.isEmpty then (acc.cloud, 0, 0)
        else upsert_memories_batch device now bad acc.batch acc.cloud
      let gr := db.graph.foldl syncGraphStep (up.1, 0)
      let total_synced := st.memories_synced + (up.2.1 : Int)
      let cloudF := update_sync_state gr.1 device now acc.maxUpd total_synced "idle"
      (cloudF,
        { stats0 with
          new_memories := up.2.1
          errors := up.2.2
          deleted_marked := acc.deleted_marked
          graph_edges := gr.2 })

/-- Dot product of `summarize._cosine_similarity`
(`sum(x * y for x, y in zip(a, b))`). -/
def dotQ (a b : List ℚ) : ℚ := (List.zipWith (fun x y => x * y) a b).sum

/-- Squared L2 norm (`sum(x * x for x in a)`; the source takes `** 0.5`
of this before dividing). -/
def normSq (a : List ℚ) : ℚ := (a.map (fun x => x * x)).sum

/-- Decides the comparison `_cosine_similarity(a, b) >= t` of
`_cluster_memories` without leaving ℚ. The source computes
`dot / (sqrt (normSq a) * sqrt (normSq b))` (0 when either norm is 0) and
compares it with `t`. With positive norms `na, nb`, `dot/(na*nb) ≥ t` iff
`dot ≥ t*na*nb`, which for `t ≥ 0` is `0 ≤ dot ∧ t²·normSq a·normSq b ≤ dot²`
and for `t < 0` is `0 ≤ dot ∨ dot² ≤ t²·normSq a·normSq b`. The lemma
`cosSimGE_iff` below proves this equal to the source's real-valued
comparison. -/
def cosSimGE (a b : List ℚ) (t : ℚ) : Bool :=
  if normSq a = 0 ∨ normSq b = 0 then decide (t ≤ 0)
  else if 0 ≤ t then
    decide (0 ≤ dotQ a b ∧ t ^ 2 * (normSq a * normSq b) ≤ dotQ a b ^ 2)
  else
    decide (0 ≤ dotQ a b ∨ dotQ a b ^ 2 ≤ t ^ 2 * (normSq a * normSq b))

/-- The truthiness test `m.get("embedding")` of `_cluster_memories`:
present and non-empty. -/
def truthyEmb (m : RemoteMem) : Bool :=
  match m.embedding with
  | some e => !e.isEmpty
  | none => false

/-- Embedding of a record inside the clustering loop
(`mem["embedding"]`; the records reaching it always pass `truthyEmb`). -/
def embOfMem (m : RemoteMem) : List ℚ := m.embedding.getD []

/-- Greedy pass of `_cluster_memories`. The head of the unassigned list
seeds a cluster and absorbs every later unassigned record whose cosine
similarity **to the seed** is ≥ threshold; all scanned-in members (absorbed
or seeding) are consumed — also when the cluster is discarded for having
fewer than 3 members. Fuel-structured (`fuel ≥ l.length` at call sites)
for structural recursion. -/
def clusterGo (t : ℚ) : Nat → List RemoteMem → List (List RemoteMem)
  | _, [] => []
  | 0, _ :: _ => []
  | fuel + 1, a :: rest =>
    let absorbed := rest.filter (fun b => cosSimGE (embOfMem a) (embOfMem b) t)
    let remaining := rest.filter (fun b => !cosSimGE (embOfMem a) (embOfMem b) t)
    let cluster := a :: absorbed
    (if 3 ≤ cluster.length then [cluster] else []) ++ clusterGo t fuel remaining

/-- `summarize._cluster_memories`: drop records without a (truthy) embedding,
then run the greedy single-pass clustering; only clusters of 3 or more
records are returned (hard-coded in the source). -/
def _cluster_memories (memories : List RemoteMem) (threshold : ℚ) : List (List RemoteMem) :=
  let with_embeddings := memories.filter truthyEmb
  clusterGo threshold with_embeddings.length with_embeddings

/-- Python `s.split(",")` on the character list. -/
def splitCommaChars : List Char → List (List Char)
  | [] => [[]]
  | c :: cs =>
    match splitCommaChars cs with
    | [] => [[]]
    | h :: t => if c = ',' then [] :: h :: t else (c :: h) :: t

/-- Python `s.strip()` (whitespace from both ends). -/
def pyStrip (s : String) : String :=
  String.mk (((s.data.dropWhile Char.isWhitespace).reverse.dropWhile Char.isWhitespace).reverse)

/-- Tags contributed by one record: `m["tags"].split(",")`, stripped,
empties dropped; a missing or empty (falsy) tags string contributes
nothing. -/
def tagList (tags : Option String) : List String :=
  match tags with
  | some s =>
    if s = "" then []
    else ((splitCommaChars s.data).map (fun cs => pyStrip (String.mk cs))).filter (fun x => x ≠ "")
  | none => []

/-- Python `sorted(...)` over a set of strings: sort the deduplicated list
(codepoint-lexicographic, as in Python). -/
def sortedSetOfStrings (l : List String) : List String :=
  List.insertionSort (fun a b : String => a ≤ b) l.dedup

/-- `summarize._generate_summary`: deterministic summary text for a cluster.
Caveat on `memory_type`: remote row dicts carry a NULL column as a present
key with value `None`, so the source's `m.get("memory_type", "note")` does
not default on it, and a cluster containing such a row makes
`', '.join(sorted(types))` raise `TypeError` — `summarize` crashes before
returning. This total model (`getD "note"`) therefore agrees with the
source only on clusters whose members all have a non-NULL `memory_type`;
every concrete input this file evaluates through `summarize` satisfies
that (`witRM` rows carry `memory_type = "note"`). -/
def _generate_summary (cluster : List RemoteMem) : String :=
  let contents := cluster.map (fun m => m.content)
  let all_tags := sortedSetOfStrings (cluster.flatMap (fun m => tagList m.tags))
  let types := sortedSetOfStrings (cluster.map (fun m => m.memory_type.getD "note"))
  let lines : List String :=
    [ "[SUMMARY of " ++ toString cluster.length ++ " related memories]"
    , "Types: " ++ String.intercalate ", " types
    , if all_tags.isEmpty then "" else "Tags: " ++ String.intercalate ", " all_tags
    , ""
    , "Key points:" ]
  let keyLines := (List.enumFrom 1 contents).map (fun p =>
    let truncated := pyStrip (String.mk (p.2.data.take 200))
    let truncated := if 200 < p.2.data.length then truncated ++ "..." else truncated
    "  " ++ toString p.1 ++ ". " ++ truncated)
  String.intercalate "\n" (lines ++ keyLines)

/-- Statistics dict returned by `summarize`. -/
structure SumStats where
  total_memories : Nat
  clusters_found : Nat
  summaries_created : Nat
  memories_covered : Nat
  dry_run : Bool
deriving DecidableEq

/-- Per-cluster body of the `summarize` loop. In dry-run mode only
`memories_covered` advances. Otherwise one summary row is upserted under
`"summary_" ++ sha(summary text)` (`sha` models the truncated sha256 hex
digest) and then updated in place to carry `is_summary`/`summarized_from`;
the upsert succeeds deterministically (the source counts a cluster only on
success). -/
def summStep (device now : String) (sha : String → String) (dry_run : Bool)
    (acc : Cloud × SumStats) (cluster : List RemoteMem) : Cloud × SumStats :=
  let source_hashes := cluster.map (fun m => m.content_hash)
  let summary_content := _generate_summary cluster
  let all_tags := sortedSetOfStrings (cluster.flatMap (fun m => tagList m.tags) ++ ["auto-summary"])
  if dry_run then
    (acc.1, { acc.2 with memories_covered := acc.2.memories_covered + cluster.length })
  else
    let ch := "summary_" ++ sha summary_content
    let out := upsert_memory device now ch summary_content
      (some (String.intercalate "," all_tags)) (some "pattern")
      (some [ ("is_summary", MetaV.bool true)
            , ("summarized_from", MetaV.list source_hashes)
            , ("cluster_size", MetaV.nat cluster.length)
            , ("source", MetaV.str "non_destructive_summarizer") ])
      none none none acc.1
    let cloud2 :=
      { out.1 with memories := out.1.memories.map (fun r =>
          if r.content_hash = ch then
            { r with is_summary := true, summarized_from := some source_hashes }
          else r) }
    (cloud2,
      { acc.2 with
        summaries_created := acc.2.summaries_created + 1
        memories_covered := acc.2.memories_covered + cluster.length })

/-- `summarize.summarize`: fetch active records, drop existing summaries,
cluster, and additively persist one summary per cluster (`sha` models the
truncated sha256 of the summary text; `min_cluster_size` is an `Int` since
the CLI may pass any integer). -/
def summarize (device now : String) (sha : String → String) (cloud : Cloud)
    (similarity_threshold : ℚ) (min_cluster_size : Int) (dry_run : Bool) :
    Cloud × SumStats :=
  let stats0 : SumStats :=
    { total_memories := 0, clusters_found := 0, summaries_created := 0
      memories_covered := 0, dry_run := dry_run }
  let memories := get_all_memories cloud false
  let stats1 := { stats0 with total_memories := memories.length }
  if (memories.length : Int) < min_cluster_size then (cloud, stats1)
  else
    let non_summaries := memories.filter (fun m => !m.is_summary)
    let clusters := _cluster_memories non_summaries similarity_threshold
    let stats2 := { stats1 with clusters_found := clusters.length }
    if clusters.isEmpty then (cloud, stats2)
    else clusters.foldl (summStep device now sha dry_run) (cloud, stats2)

/-- The hash namespace tag of summary records
(`f"summary_{summary_hash}"` in `summarize`). -/
def isSummaryHash (h : String) : Bool :=
  "summary_".data.isPrefixOf h.data

/-- The spec's change-timestamp of a record: `updated_at`, or `created_at`
when `updated_at` is absent. -/
def changeTs (m : LocalMem) : Int :=
  match m.updated_at with
  | some u => u
  | none => m.created_at.getD 0

/-- Rows of the changed set that are prepared for upsert (tombstoned rows
are routed to deletion marking instead). -/
def preparedRows (mems : List LocalMem) (since : Int) : List LocalMem :=
  (_get_local_memories mems since).filter (fun m => !m.deleted_at.isSome)

/- Concrete inputs used by witnesses and counterexamples. -/

/-- A remote row with the given hash, embedding and creation time. Its
`memory_type` column is non-NULL ("note"), so every concrete trace through
`summarize`/`_generate_summary` below stays on the source's non-crashing
path (see the `_generate_summary` comment). -/
def witRM (h : String) (e : Option (List ℚ)) (c : Int) : RemoteMem :=
  { content_hash := h, content := "content " ++ h, tags := some "x, y"
    memory_type := some "note", metadata := [], created_at := some c, updated_at := some c
    source_device := "d", synced_at := "", local_deleted := false
    is_summary := false, summarized_from := none, embedding := e }

/-- Four active remote rows: three mutually identical embeddings, one
orthogonal. -/
def witCloud4 : Cloud :=
  { memories := [witRM "a" (some [1, 0]) 1, witRM "b" (some [1, 0]) 2,
                 witRM "c" (some [1, 0]) 3, witRM "d" (some [0, 1]) 4]
    deletion_log := [], sync_state := [], memory_graph := [] }

/-- Stand-in for the truncated sha256 hex digest. -/
def witSha : String → String := fun _ => "HASH"

/-- A local row changed at time `t`. -/
def witLM (h : String) (t : Int) : LocalMem :=
  { content_hash := h, content := "C" ++ h, tags := none, memory_type := none
    metadata := [], created_at := some t, updated_at := some t, deleted_at := none }

/-- Local store with two records changed at t=10 and t=20. -/
def witDB2 : LocalDB := { mems := [witLM "a" 10, witLM "b" 20], embs := [], graph := [] }

/-- An empty remote store. -/
def witCloud0 : Cloud := ⟨[], [], [], []⟩

/-- Remote store whose `sync_state` row for device `dev` holds watermark 5. -/
def witCloud5 : Cloud := ⟨[], [], [⟨"dev", "", 5, 7, "idle"⟩], []⟩

/-- Local store with a single tombstoned record. -/
def witDBDel : LocalDB :=
  { mems := [{ witLM "a" 5 with deleted_at := some 6 }], embs := [], graph := [] }

/-- Remote store holding record `a` and a watermark (100) past every local
change timestamp. -/
def witCloudA : Cloud := ⟨[witRM "a" none 5], [], [⟨"dev", "", 100, 3, "idle"⟩], []⟩

/-- The i-th input dict for the 60-row batch scenario. -/
def witMemIn (i : Nat) : MemIn :=
  { content_hash := "h" ++ toString i, content := "c" ++ toString i, tags := none
    memory_type := none, metadata := [], created_at := some (Int.ofNat i)
    updated_at := some (Int.ofNat i), embedding := none }

/-- Batch of 60 input dicts. -/
def witMems60 : List MemIn := (List.range 60).map witMemIn

/-- The backend rejects exactly row #37 (index 36). -/
def witBad37 : UpsertPayload → Bool := fun p => p.content_hash == "h36"

/-- Remote store whose single row `a` is tombstoned. -/
def witCloudTomb : Cloud :=
  ⟨[{ witRM "a" none 5 with local_deleted := true }], [], [], []⟩

/-- The row produced by re-upserting hash `a` into `witCloudTomb`. -/
def witUpsertedRow : RemoteMem :=
  { content_hash := "a", content := "newC", tags := none, memory_type := none
    metadata := [], created_at := none, updated_at := none, source_device := "dev"
    synced_at := "now", local_deleted := false, is_summary := false
    summarized_from := none, embedding := none }

/-- The cluster formed by the three mutually-identical embeddings of
`witCloud4`. -/
def witClusterABC : List RemoteMem :=
  [witRM "a" (some [1, 0]) 1, witRM "b" (some [1, 0]) 2, witRM "c" (some [1, 0]) 3]

/-- Row `a` of `witCloudA` after tombstone propagation. -/
def witMarkedRow : RemoteMem := { witRM "a" none 5 with local_deleted := true }

/- Helper lemmas. -/

lemma filter_length_partition (p : α → Bool) (l : List α) :
    (l.filter p).length + (l.filter (fun a => !p a)).length = l.length := by
  induction l with
  | nil => rfl
  | cons a l ih =>
    by_cases h : p a <;> simp [List.filter_cons, h, ← ih] <;> omega

lemma foldl_max_init_le (l : List Int) (s : Int) : s ≤ l.foldl max s := by
  induction l generalizing s with
  | nil => simp
  | cons a l ih => exact le_trans (le_max_left s a) (ih (max s a))

lemma foldl_max_le_of_mem (l : List Int) (s : Int) (x : Int) (hx : x ∈ l) :
    x ≤ l.foldl max s := by
  induction l generalizing s with
  | nil => cases hx
  | cons a l ih =>
    rcases List.mem_cons.mp hx with h | h
    · subst h
      exact le_trans (le_max_right s x) (foldl_max_init_le l (max s x))
    · exact ih (max s a) h

lemma foldl_max_eq_init_or_mem (l : List Int) (s : Int) :
    l.foldl max s = s ∨ l.foldl max s ∈ l := by
  induction l generalizing s with
  | nil => left; rfl
  | cons a l ih =>
    simp only [List.foldl_cons]
    rcases ih (max s a) with h | h
    · rw [h]
      rcases max_cases s a with ⟨hm, _⟩ | ⟨hm, _⟩
      · left; exact hm
      · right; rw [hm]; exact List.mem_cons_self a l
    · right; exact List.mem_cons_of_mem a h

lemma ite_lt_eq_max (a b : Int) : (if a < b then b else a) = max a b := by
  rcases lt_or_ge a b with h | h
  · simp [h, max_eq_right h.le]
  · simp [not_lt.mpr h, max_eq_left h]

lemma find_map_replace (t : List SyncStateRow) (d : String) (row : SyncStateRow)
    (hd : row.device_name = d) :
    (t.map (fun r => if r.device_name = d then row else r)).find?
        (fun r => r.device_name == d) =
      if t.any (fun r => r.device_name == d) then some row
      else t.find? (fun r => r.device_name == d) := by
  induction t with
  | nil => simp
  | cons a t ih =>
    by_cases ha : a.device_name = d
    · simp [List.find?, ha, hd, List.any_cons]
    · have hb : (a.device_name == d) = false := by simpa using ha
      simp only [List.map_cons, if_neg ha, List.find?, hb, List.any_cons, Bool.false_or]
      exact ih

lemma find_append_one (t : List SyncStateRow) (d : String) (row : SyncStateRow)
    (hd : row.device_name = d)
    (hnone : ∀ r ∈ t, (r.device_name == d) = false) :
    (t ++ [row]).find? (fun r => r.device_name == d) = some row := by
  induction t with
  | nil => simp [List.find?, hd]
  | cons a t ih =>
    have hb := hnone a (List.mem_cons_self a t)
    simp only [List.cons_append, List.find?, hb]
    exact ih (fun r hr => hnone r (List.mem_cons_of_mem a hr))

lemma get_update_sync_state (c : Cloud) (d now : String) (l m : Int) (s : String) :
    get_sync_state (update_sync_state c d now l m s) d =
      { device_name := d, last_sync_at := now, last_sync_updated_at := l
        memories_synced := m, status := s } := by
  by_cases h : c.sync_state.any (fun r => r.device_name == d)
  · have hu : (update_sync_state c d now l m s).sync_state =
        c.sync_state.map (fun r => if r.device_name = d then
          { device_name := d, last_sync_at := now, last_sync_updated_at := l
            memories_synced := m, status := s } else r) := by
      unfold update_sync_state
      rw [if_pos h]
    unfold get_sync_state
    rw [hu, find_map_replace c.sync_state d
      { device_name := d, last_sync_at := now, last_sync_updated_at := l
        memories_synced := m, status := s } rfl]
    rw [if_pos h]
  · have hu : (update_sync_state c d now l m s).sync_state =
        c.sync_state ++
          [{ device_name := d, last_sync_at := now, last_sync_updated_at := l
             memories_synced := m, status := s }] := by
      unfold update_sync_state
      rw [if_neg h]
    unfold get_sync_state
    rw [hu, find_append_one c.sync_state d
      { device_name := d, last_sync_at := now, last_sync_updated_at := l
        memories_synced := m, status := s } rfl]
    intro r hr
    by_contra hc
    exact h (List.any_eq_true.mpr ⟨r, hr, by simpa using hc⟩)

lemma filter_map_frame (g : RemoteMem → RemoteMem) (keep : RemoteMem → Bool)
    (db : List RemoteMem)
    (h1 : ∀ r, keep r = true → g r = r)
    (h2 : ∀ r, keep r = false → keep (g r) = false) :
    (db.map g).filter keep = db.filter keep := by
  induction db with
  | nil => rfl
  | cons a t ih =>
    by_cases ha : keep a = true
    · rw [List.map_cons, List.filter_cons, List.filter_cons, h1 a ha, ha, ih]
    · have ha' : keep a = false := by revert ha; cases keep a <;> simp
      rw [List.map_cons, List.filter_cons, List.filter_cons, ha', h2 a ha', ih]
      rfl

lemma applyPayload_hash (old : Option RemoteMem) (p : UpsertPayload) :
    (applyPayload old p).content_hash = p.content_hash := rfl

lemma applyPayload_ld (old : Option RemoteMem) (p : UpsertPayload) :
    (applyPayload old p).local_deleted = p.local_deleted := rfl

lemma upsertMem_filter_frame (db : List RemoteMem) (p : UpsertPayload)
    (keep : String → Bool) (hp : keep p.content_hash = false) :
    (upsertMem db p).filter (fun r => keep r.content_hash) =
      db.filter (fun r => keep r.content_hash) := by
  unfold upsertMem
  by_cases h : db.any (fun r => r.content_hash == p.content_hash)
  · rw [if_pos h]
    apply filter_map_frame
    · intro r hr
      by_cases hh : r.content_hash = p.content_hash
      · rw [hh] at hr; rw [hr] at hp; cases hp
      · rw [if_neg hh]
    · intro r hr
      by_cases hh : r.content_hash = p.content_hash
      · rw [if_pos hh, applyPayload_hash, hp]
      · rw [if_neg hh]; exact hr
  · rw [if_neg h, List.filter_append]
    simp [applyPayload_hash, hp]

lemma upsertMem_mem_or (db : List RemoteMem) (p : UpsertPayload) (m : RemoteMem)
    (hm : m ∈ upsertMem db p) : m ∈ db ∨ m.local_deleted = p.local_deleted := by
  unfold upsertMem at hm
  by_cases h : db.any (fun r => r.content_hash == p.content_hash)
  · rw [if_pos h] at hm
    obtain ⟨r, hr, hrm⟩ := List.mem_map.mp hm
    by_cases hh : r.content_hash = p.content_hash
    · right; rw [← hrm, if_pos hh, applyPayload_ld]
    · left; rw [← hrm, if_neg hh]; exact hr
  · rw [if_neg h] at hm
    rcases List.mem_append.mp hm with h1 | h1
    · left; exact h1
    · right; rw [List.mem_singleton.mp h1, applyPayload_ld]

lemma upsertMem_hash_ld (db : List RemoteMem) (p : UpsertPayload) (m : RemoteMem)
    (hm : m ∈ upsertMem db p) (hh : m.content_hash = p.content_hash) :
    m.local_deleted = p.local_deleted := by
  unfold upsertMem at hm
  by_cases h : db.any (fun r => r.content_hash == p.content_hash)
  · rw [if_pos h] at hm
    obtain ⟨r, hr, hrm⟩ := List.mem_map.mp hm
    by_cases hrh : r.content_hash = p.content_hash
    · rw [← hrm, if_pos hrh, applyPayload_ld]
    · rw [← hrm, if_neg hrh] at hh; exact absurd hh hrh
  · rw [if_neg h] at hm
    rcases List.mem_append.mp hm with h1 | h1
    · exfalso
      apply h
      exact List.any_eq_true.mpr ⟨m, h1, by simpa using hh⟩
    · rw [List.mem_singleton.mp h1, applyPayload_ld]

lemma upsertMem_exists (db : List RemoteMem) (p : UpsertPayload) :
    ∃ m ∈ upsertMem db p, m.content_hash = p.content_hash := by
  unfold upsertMem
  by_cases h : db.any (fun r => r.content_hash == p.content_hash)
  · rw [if_pos h]
    obtain ⟨r, hr, hd⟩ := List.any_eq_true.mp h
    have hrp : r.content_hash = p.content_hash := by simpa using hd
    refine ⟨applyPayload (some r) p, ?_, applyPayload_hash _ _⟩
    have hmem := List.mem_map_of_mem
      (fun x => if x.content_hash = p.content_hash then applyPayload (some x) p else x) hr
    simpa [hrp] using hmem
  · rw [if_neg h]
    exact ⟨applyPayload none p, List.mem_append_right _ (List.mem_singleton_self _),
      applyPayload_hash _ _⟩

lemma update_sync_state_memories (c : Cloud) (d now : String) (l m : Int) (s : String) :
    (update_sync_state c d now l m s).memories = c.memories := by
  unfold update_sync_state
  by_cases h : c.sync_state.any (fun r => r.device_name == d) <;> simp [h]

lemma update_sync_state_log (c : Cloud) (d now : String) (l m : Int) (s : String) :
    (update_sync_state c d now l m s).deletion_log = c.deletion_log := by
  unfold update_sync_state
  by_cases h : c.sync_state.any (fun r => r.device_name == d) <;> simp [h]

lemma update_sync_state_graph (c : Cloud) (d now : String) (l m : Int) (s : String) :
    (update_sync_state c d now l m s).memory_graph = c.memory_graph := by
  unfold update_sync_state
  by_cases h : c.sync_state.any (fun r => r.device_name == d) <;> simp [h]

lemma mark_sync_state (device : String) (f1 f2 f3 : Bool) (cloud : Cloud)
    (h reason : String) :
    (mark_locally_deleted device f1 f2 f3 cloud h reason).1.sync_state =
      cloud.sync_state := by
  unfold mark_locally_deleted
  cases f1 with
  | true => rfl
  | false =>
    cases hf : cloud.memories.filter (fun r => r.content_hash == h) with
    | nil => simp only [hf]; cases f3 <;> rfl
    | cons a t => simp only [hf]; cases f2 with
      | true => rfl
      | false => cases f3 <;> rfl

lemma mark_graph (device : String) (f1 f2 f3 : Bool) (cloud : Cloud)
    (h reason : String) :
    (mark_locally_deleted device f1 f2 f3 cloud h reason).1.memory_graph =
      cloud.memory_graph := by
  unfold mark_locally_deleted
  cases f1 with
  | true => rfl
  | false =>
    cases hf : cloud.memories.filter (fun r => r.content_hash == h) with
    | nil => simp only [hf]; cases f3 <;> rfl
    | cons a t => simp only [hf]; cases f2 with
      | true => rfl
      | false => cases f3 <;> rfl

lemma mark_success (device : String) (f1 : Bool) (cloud : Cloud) (h reason : String) :
    (mark_locally_deleted device f1 false false cloud h reason).2 = !f1 := by
  unfold mark_locally_deleted
  cases f1 with
  | true => rfl
  | false =>
    cases hf : cloud.memories.filter (fun r => r.content_hash == h) with
    | nil => simp only [hf]; rfl
    | cons a t => simp only [hf]; rfl

lemma upsertChunksGo_counts (bad : UpsertPayload → Bool) :
    ∀ (fuel : Nat) (rows : List UpsertPayload) (db : List RemoteMem),
      rows.length ≤ fuel →
      (upsertChunksGo bad fuel db rows).2.1 = (rows.filter (fun p => !bad p)).length ∧
      (upsertChunksGo bad fuel db rows).2.2 = (rows.filter bad).length := by
  intro fuel
  induction fuel with
  | zero =>
    intro rows db hlen
    have : rows = [] := List.length_eq_zero.mp (Nat.le_zero.mp hlen)
    subst this
    exact ⟨rfl, rfl⟩
  | succ fuel ih =>
    intro rows db hlen
    cases rows with
    | nil => exact ⟨rfl, rfl⟩
    | cons r rs =>
      have hsplit : (r :: rs).take 50 ++ (r :: rs).drop 50 = r :: rs :=
        List.take_append_drop 50 (r :: rs)
      have hrest : ((r :: rs).drop 50).length ≤ fuel := by
        rw [List.length_drop]
        have := hlen
        simp only [List.length_cons] at this ⊢
        omega
      have hfb : ∀ q : UpsertPayload → Bool,
          ((r :: rs).filter q).length =
            (((r :: rs).take 50).filter q).length + (((r :: rs).drop 50).filter q).length := by
        intro q
        conv_lhs => rw [← hsplit]
        rw [List.filter_append, List.length_append]
      by_cases hany : ((r :: rs).take 50).any bad
      · have ihr := ih ((r :: rs).drop 50) (((r :: rs).take 50).foldl
          (fun d p => if bad p then d else upsertMem d p) db) hrest
        constructor
        · simp only [upsertChunksGo, hany, if_true]
          rw [ihr.1, hfb (fun p => !bad p)]
        · simp only [upsertChunksGo, hany, if_true]
          rw [ihr.2, hfb bad]
      · have ihr := ih ((r :: rs).drop 50) (((r :: rs).take 50).foldl
          (fun d p => upsertMem d p) db) hrest
        have hnone : ∀ p ∈ (r :: rs).take 50, bad p = false := by
          intro p hp
          by_contra hc
          exact hany (List.any_eq_true.mpr ⟨p, hp, by revert hc; cases bad p <;> simp⟩)
        have hkeep : ((r :: rs).take 50).filter (fun p => !bad p) = (r :: rs).take 50 := by
          apply List.filter_eq_self.mpr
          intro p hp
          rw [hnone p hp]; rfl
        have hdrop : ((r :: rs).take 50).filter bad = [] := by
          apply List.filter_eq_nil.mpr
          intro p hp
          simp [hnone p hp]
        have hany' : ((r :: rs).take 50).any bad = false := by
          revert hany; cases ((r :: rs).take 50).any bad <;> simp
        constructor
        · simp only [upsertChunksGo, hany', Bool.false_eq_true, if_false]
          rw [ihr.1, hfb (fun p => !bad p), hkeep]
        · simp only [upsertChunksGo, hany', Bool.false_eq_true, if_false]
          rw [ihr.2, hfb bad, hdrop, List.length_nil, Nat.zero_add]

lemma foldl_upsert_ld (ps : List UpsertPayload) (db : List RemoteMem)
    (hps : ∀ p ∈ ps, p.local_deleted = false) :
    ∀ m ∈ ps.foldl (fun d p => upsertMem d p) db, m ∈ db ∨ m.local_deleted = false := by
  induction ps generalizing db with
  | nil => intro m hm; left; exact hm
  | cons p ps ih =>
    intro m hm
    rcases ih (upsertMem db p)
        (fun q hq => hps q (List.mem_cons_of_mem p hq)) m hm with h | h
    · rcases upsertMem_mem_or db p m h with h1 | h1
      · left; exact h1
      · right; rw [h1]; exact hps p (List.mem_cons_self p ps)
    · right; exact h

lemma foldl_upsert_cond_ld (bad : UpsertPayload → Bool) (ps : List UpsertPayload)
    (db : List RemoteMem) (hps : ∀ p ∈ ps, p.local_deleted = false) :
    ∀ m ∈ ps.foldl (fun d p => if bad p then d else upsertMem d p) db,
      m ∈ db ∨ m.local_deleted = false := by
  induction ps generalizing db with
  | nil => intro m hm; left; exact hm
  | cons p ps ih =>
    intro m hm
    rcases ih (if bad p then db else upsertMem db p)
        (fun q hq => hps q (List.mem_cons_of_mem p hq)) m hm with h | h
    · by_cases hb : bad p
      · rw [if_pos hb] at h; left; exact h
      · rw [if_neg hb] at h
        rcases upsertMem_mem_or db p m h with h1 | h1
        · left; exact h1
        · right; rw [h1]; exact hps p (List.mem_cons_self p ps)
    · right; exact h

lemma upsertChunksGo_ld (bad : UpsertPayload → Bool) :
    ∀ (fuel : Nat) (rows : List UpsertPayload) (db : List RemoteMem),
      (∀ p ∈ rows, p.local_deleted = false) →
      ∀ m ∈ (upsertChunksGo bad fuel db rows).1, m ∈ db ∨ m.local_deleted = false := by
  intro fuel
  induction fuel with
  | zero =>
    intro rows db hps m hm
    cases rows with
    | nil => left; exact hm
    | cons r rs => left; exact hm
  | succ fuel ih =>
    intro rows db hps m hm
    cases rows with
    | nil => left; exact hm
    | cons r rs =>
      by_cases hany : ((r :: rs).take 50).any bad
      · simp only [upsertChunksGo, hany, if_true] at hm
        have hstep := ih ((r :: rs).drop 50)
          (((r :: rs).take 50).foldl (fun d p => if bad p then d else upsertMem d p) db)
          (fun p hp => hps p (List.drop_subset 50 (r :: rs) hp)) m hm
        rcases hstep with h | h
        · exact foldl_upsert_cond_ld bad ((r :: rs).take 50) db
            (fun p hp => hps p (List.take_subset 50 (r :: rs) hp)) m h
        · right; exact h
      · have hany' : ((r :: rs).take 50).any bad = false := by
          revert hany; cases ((r :: rs).take 50).any bad <;> simp
        simp only [upsertChunksGo, hany', Bool.false_eq_true, if_false] at hm
        have hstep := ih ((r :: rs).drop 50)
          (((r :: rs).take 50).foldl (fun d p => upsertMem d p) db)
          (fun p hp => hps p (List.drop_subset 50 (r :: rs) hp)) m hm
        rcases hstep with h | h
        · exact foldl_upsert_ld ((r :: rs).take 50) db
            (fun p hp => hps p (List.take_subset 50 (r :: rs) hp)) m h
        · right; exact h

lemma rowOf_ld (device now : String) (mem : MemIn) :
    (rowOf device now mem).local_deleted = false := rfl

lemma upsert_memories_batch_log (device now : String) (bad : UpsertPayload → Bool)
    (mems : List MemIn) (cloud : Cloud) :
    (upsert_memories_batch device now bad mems cloud).1.deletion_log =
      cloud.deletion_log := rfl

lemma upsert_memories_batch_sync (device now : String) (bad : UpsertPayload → Bool)
    (mems : List MemIn) (cloud : Cloud) :
    (upsert_memories_batch device now bad mems cloud).1.sync_state =
      cloud.sync_state := rfl

lemma upsert_memories_batch_graph (device now : String) (bad : UpsertPayload → Bool)
    (mems : List MemIn) (cloud : Cloud) :
    (upsert_memories_batch device now bad mems cloud).1.memory_graph =
      cloud.memory_graph := rfl

lemma upsert_memories_batch_ld (device now : String) (bad : UpsertPayload → Bool)
    (mems : List MemIn) (cloud : Cloud) :
    ∀ m ∈ (upsert_memories_batch device now bad mems cloud).1.memories,
      m ∈ cloud.memories ∨ m.local_deleted = false := by
  intro m hm
  exact upsertChunksGo_ld bad (mems.map (rowOf device now)).length
    (mems.map (rowOf device now)) cloud.memories
    (by
      intro p hp
      obtain ⟨q, _, hq⟩ := List.mem_map.mp hp
      rw [← hq]; rfl) m hm

lemma clusterGo_sizes (t : ℚ) :
    ∀ (fuel : Nat) (l : List RemoteMem) (c : List RemoteMem),
      c ∈ clusterGo t fuel l → 3 ≤ c.length := by
  intro fuel
  induction fuel with
  | zero =>
    intro l c hc
    cases l with
    | nil => cases hc
    | cons a rest => cases hc
  | succ fuel ih =>
    intro l c hc
    cases l with
    | nil => cases hc
    | cons a rest =>
      simp only [clusterGo] at hc
      rcases List.mem_append.mp hc with h | h
      · by_cases hk : 3 ≤ (a :: rest.filter
            (fun b => cosSimGE (embOfMem a) (embOfMem b) t)).length
        · rw [if_pos hk] at h
          rw [List.mem_singleton.mp h]
          exact hk
        · rw [if_neg hk] at h
          cases h
      · exact ih _ c h

lemma clusterGo_mem_input (t : ℚ) :
    ∀ (fuel : Nat) (l : List RemoteMem) (c : List RemoteMem) (m : RemoteMem),
      c ∈ clusterGo t fuel l → m ∈ c → m ∈ l := by
  intro fuel
  induction fuel with
  | zero =>
    intro l c m hc
    cases l with
    | nil => cases hc
    | cons a rest => cases hc
  | succ fuel ih =>
    intro l c m hc hm
    cases l with
    | nil => cases hc
    | cons a rest =>
      simp only [clusterGo] at hc
      rcases List.mem_append.mp hc with h | h
      · by_cases hk : 3 ≤ (a :: rest.filter
            (fun b => cosSimGE (embOfMem a) (embOfMem b) t)).length
        · rw [if_pos hk] at h
          rw [List.mem_singleton.mp h] at hm
          rcases List.mem_cons.mp hm with h1 | h1
          · rw [h1]; exact List.mem_cons_self a rest
          · exact List.mem_cons_of_mem a (List.mem_of_mem_filter h1)
        · rw [if_neg hk] at h
          cases h
      · exact List.mem_cons_of_mem a
          (List.mem_of_mem_filter (ih _ c m h hm))

lemma clusterGo_seed (t : ℚ) :
    ∀ (fuel : Nat) (l : List RemoteMem) (c : List RemoteMem),
      c ∈ clusterGo t fuel l →
      ∃ s tl, c = s :: tl ∧ ∀ m ∈ tl, cosSimGE (embOfMem s) (embOfMem m) t = true := by
  intro fuel
  induction fuel with
  | zero =>
    intro l c hc
    cases l with
    | nil => cases hc
    | cons a rest => cases hc
  | succ fuel ih =>
    intro l c hc
    cases l with
    | nil => cases hc
    | cons a rest =>
      simp only [clusterGo] at hc
      rcases List.mem_append.mp hc with h | h
      · by_cases hk : 3 ≤ (a :: rest.filter
            (fun b => cosSimGE (embOfMem a) (embOfMem b) t)).length
        · rw [if_pos hk] at h
          refine ⟨a, rest.filter (fun b => cosSimGE (embOfMem a) (embOfMem b) t),
            List.mem_singleton.mp h, ?_⟩
          intro m hm
          exact (List.mem_filter.mp hm).2
        · rw [if_neg hk] at h
          cases h
      · exact ih _ c h

lemma clusterGo_pairwise (t : ℚ) :
    ∀ (fuel : Nat) (l : List RemoteMem), l.Nodup →
      (clusterGo t fuel l).Pairwise (fun c1 c2 => ∀ m ∈ c1, m ∉ c2) := by
  intro fuel
  induction fuel with
  | zero =>
    intro l hl
    cases l with
    | nil => exact List.Pairwise.nil
    | cons a rest => exact List.Pairwise.nil
  | succ fuel ih =>
    intro l hl
    cases l with
    | nil => exact List.Pairwise.nil
    | cons a rest =>
      have hna : a ∉ rest := (List.nodup_cons.mp hl).1
      have hrest : rest.Nodup := (List.nodup_cons.mp hl).2
      have hrem : (rest.filter
          (fun b => !cosSimGE (embOfMem a) (embOfMem b) t)).Nodup :=
        hrest.filter _
      have ihrem := ih _ hrem
      simp only [clusterGo]
      by_cases hk : 3 ≤ (a :: rest.filter
          (fun b => cosSimGE (embOfMem a) (embOfMem b) t)).length
      · rw [if_pos hk]
        refine List.Pairwise.cons ?_ ihrem
        intro c2 hc2 m hm hm2
        have hm2' : m ∈ rest.filter (fun b => !cosSimGE (embOfMem a) (embOfMem b) t) :=
          clusterGo_mem_input t fuel _ c2 m hc2 hm2
        rcases List.mem_cons.mp hm with h1 | h1
        · rw [h1] at hm2'
          exact hna (List.mem_of_mem_filter hm2')
        · have hsim : cosSimGE (embOfMem a) (embOfMem m) t = true :=
            (List.mem_filter.mp h1).2
          have hnsim : (!cosSimGE (embOfMem a) (embOfMem m) t) = true :=
            (List.mem_filter.mp hm2').2
          rw [hsim] at hnsim
          cases hnsim
      · rw [if_neg hk]
        simpa using ihrem

lemma buildFold_sync_state (device : String) (embOf : String → Option (List ℚ))
    (markFails : String → Bool) :
    ∀ (ms : List LocalMem) (acc : BuildAcc),
      ((ms.foldl (syncBuildStep device embOf markFails) acc).cloud).sync_state =
        acc.cloud.sync_state := by
  intro ms
  induction ms with
  | nil => intro acc; rfl
  | cons m ms ih =>
    intro acc
    rw [List.foldl_cons, ih]
    unfold syncBuildStep
    by_cases hd : m.deleted_at.isSome
    · simp only [hd, if_true]
      exact mark_sync_state _ _ _ _ _ _ _
    · simp only [hd, Bool.false_eq_true, if_false]

lemma buildFold_batch (device : String) (embOf : String → Option (List ℚ))
    (markFails : String → Bool) :
    ∀ (ms : List LocalMem) (acc : BuildAcc),
      (ms.foldl (syncBuildStep device embOf markFails) acc).batch =
        acc.batch ++ (ms.filter (fun m => !m.deleted_at.isSome)).map (memInOf embOf) := by
  intro ms
  induction ms with
  | nil => intro acc; simp
  | cons m ms ih =>
    intro acc
    rw [List.foldl_cons, ih, List.filter_cons]
    unfold syncBuildStep
    by_cases hd : m.deleted_at.isSome
    · simp [hd]
    · simp only [hd, Bool.false_eq_true, if_false, Bool.not_false, if_true, List.map_cons]
      simp

lemma buildFold_maxUpd (device : String) (embOf : String → Option (List ℚ))
    (markFails : String → Bool) :
    ∀ (ms : List LocalMem) (acc : BuildAcc),
      (ms.foldl (syncBuildStep device embOf markFails) acc).maxUpd =
        ((ms.filter (fun m => !m.deleted_at.isSome)).map pyTs).foldl max acc.maxUpd := by
  intro ms
  induction ms with
  | nil => intro acc; rfl
  | cons m ms ih =>
    intro acc
    rw [List.foldl_cons, ih, List.filter_cons]
    unfold syncBuildStep
    by_cases hd : m.deleted_at.isSome
    · simp [hd]
    · simp only [hd, Bool.false_eq_true, if_false, Bool.not_false, if_true, List.map_cons,
        List.foldl_cons]
      rw [ite_lt_eq_max]

lemma markFold_count (device : String) (mf : String → Bool) :
    ∀ (hs : List String) (p : Cloud × Nat),
      (hs.foldl (syncMarkAllStep device mf) p).2 =
        p.2 + (hs.filter (fun h => !mf h)).length := by
  intro hs
  induction hs with
  | nil => intro p; simp
  | cons h hs ih =>
    intro p
    rw [List.foldl_cons, ih (syncMarkAllStep device mf p h), List.filter_cons]
    have h2 : (syncMarkAllStep device mf p h).2 = p.2 + if (!mf h) then 1 else 0 := by
      simp only [syncMarkAllStep]
      rw [mark_success]
    rw [h2]
    by_cases hm : mf h
    · simp only [hm, Bool.not_true, Bool.false_eq_true, if_false, Nat.add_zero]
    · have hm' : mf h = false := by revert hm; cases mf h <;> simp
      simp only [hm', Bool.not_false, if_true, List.length_cons]
      omega

lemma markFold_sync_state (device : String) (mf : String → Bool) :
    ∀ (hs : List String) (p : Cloud × Nat),
      (hs.foldl (syncMarkAllStep device mf) p).1.sync_state = p.1.sync_state := by
  intro hs
  induction hs with
  | nil => intro p; rfl
  | cons h hs ih =>
    intro p
    rw [List.foldl_cons, ih (syncMarkAllStep device mf p h)]
    exact mark_sync_state device (mf h) false false p.1 h "local_soft_delete"

lemma graphFold_sync_state :
    ∀ (es : List LocalEdge) (p : Cloud × Nat),
      (es.foldl syncGraphStep p).1.sync_state = p.1.sync_state := by
  intro es
  induction es with
  | nil => intro p; rfl
  | cons e es ih =>
    intro p
    rw [List.foldl_cons, ih (syncGraphStep p e)]
    rfl

lemma mark_marks_rows (device : String) (cloud : Cloud) (h reason : String) :
    ∀ r ∈ (mark_locally_deleted device false false false cloud h reason).1.memories,
      r.content_hash = h → r.local_deleted = true := by
  intro r hr hh
  unfold mark_locally_deleted at hr
  rcases hf : cloud.memories.filter (fun x => x.content_hash == h) with _ | ⟨a, t⟩ <;>
    simp only [hf] at hr
  · obtain ⟨r0, _, hr0⟩ := List.mem_map.mp hr
    by_cases hc : r0.content_hash = h
    · rw [← hr0, if_pos hc]
    · rw [← hr0, if_neg hc] at hh
      exact absurd hh hc
  · obtain ⟨r0, _, hr0⟩ := List.mem_map.mp hr
    by_cases hc : r0.content_hash = h
    · rw [← hr0, if_pos hc]
    · rw [← hr0, if_neg hc] at hh
      exact absurd hh hc

lemma mark_pres_marked (device : String) (f1 f2 f3 : Bool) (cloud : Cloud)
    (h h' reason : String)
    (hpre : ∀ r ∈ cloud.memories, r.content_hash = h → r.local_deleted = true) :
    ∀ r ∈ (mark_locally_deleted device f1 f2 f3 cloud h' reason).1.memories,
      r.content_hash = h → r.local_deleted = true := by
  intro r hr hh
  unfold mark_locally_deleted at hr
  cases f1 with
  | true => exact hpre r hr hh
  | false =>
    rcases hf : cloud.memories.filter (fun x => x.content_hash == h') with _ | ⟨a, t⟩ <;>
      simp only [hf] at hr
    · cases f3 with
      | true => exact hpre r hr hh
      | false =>
        simp only [Bool.false_eq_true, if_false] at hr
        obtain ⟨r0, hr0m, hr0⟩ := List.mem_map.mp hr
        by_cases hc : r0.content_hash = h'
        · rw [← hr0, if_pos hc]
        · rw [← hr0, if_neg hc] at hh ⊢
          exact hpre r0 hr0m hh
    · cases f2 with
      | true => exact hpre r hr hh
      | false =>
        cases f3 with
        | true => exact hpre r hr hh
        | false =>
          simp only [Bool.false_eq_true, if_false] at hr
          obtain ⟨r0, hr0m, hr0⟩ := List.mem_map.mp hr
          by_cases hc : r0.content_hash = h'
          · rw [← hr0, if_pos hc]
          · rw [← hr0, if_neg hc] at hh ⊢
            exact hpre r0 hr0m hh

lemma markFold_marks (device : String) (mf : String → Bool) :
    ∀ (hs : List String) (p : Cloud × Nat) (h : String),
      (h ∈ hs ∧ mf h = false) ∨
        (∀ r ∈ p.1.memories, r.content_hash = h → r.local_deleted = true) →
      ∀ r ∈ (hs.foldl (syncMarkAllStep device mf) p).1.memories,
        r.content_hash = h → r.local_deleted = true := by
  intro hs
  induction hs with
  | nil =>
    intro p h hcase r hr hh
    rcases hcase with ⟨hmem, _⟩ | hpre
    · cases hmem
    · exact hpre r hr hh
  | cons h0 hs ih =>
    intro p h hcase r hr hh
    rw [List.foldl_cons] at hr
    rcases hcase with ⟨hmem, hmf⟩ | hpre
    · rcases List.mem_cons.mp hmem with rfl | hmem'
      · refine ih (syncMarkAllStep device mf p h) h (Or.inr ?_) r hr hh
        intro r' hr' hh'
        have : (syncMarkAllStep device mf p h).1 =
            (mark_locally_deleted device (mf h) false false p.1 h "local_soft_delete").1 := rfl
        rw [this] at hr'
        rw [hmf] at hr'
        exact mark_marks_rows device p.1 h "local_soft_delete" r' hr' hh'
      · exact ih (syncMarkAllStep device mf p h0) h (Or.inl ⟨hmem', hmf⟩) r hr hh
    · refine ih (syncMarkAllStep device mf p h0) h (Or.inr ?_) r hr hh
      intro r' hr' hh'
      exact mark_pres_marked device (mf h0) false false p.1 h h0 "local_soft_delete"
        hpre r' hr' hh'

lemma isSummaryHash_append (s : String) : isSummaryHash ("summary_" ++ s) = true := by
  unfold isSummaryHash
  rw [String.data_append]
  exact List.isPrefixOf_iff_prefix.mpr (List.prefix_append _ _)

lemma summStep_log (device now : String) (sha : String → String) (dry : Bool)
    (acc : Cloud × SumStats) (cluster : List RemoteMem) :
    (summStep device now sha dry acc cluster).1.deletion_log = acc.1.deletion_log := by
  unfold summStep
  cases dry with
  | true => rfl
  | false => rfl

lemma summStep_sync (device now : String) (sha : String → String) (dry : Bool)
    (acc : Cloud × SumStats) (cluster : List RemoteMem) :
    (summStep device now sha dry acc cluster).1.sync_state = acc.1.sync_state := by
  unfold summStep
  cases dry with
  | true => rfl
  | false => rfl

lemma summStep_graph (device now : String) (sha : String → String) (dry : Bool)
    (acc : Cloud × SumStats) (cluster : List RemoteMem) :
    (summStep device now sha dry acc cluster).1.memory_graph = acc.1.memory_graph := by
  unfold summStep
  cases dry with
  | true => rfl
  | false => rfl

lemma summStep_dry (device now : String) (sha : String → String)
    (acc : Cloud × SumStats) (cluster : List RemoteMem) :
    (summStep device now sha true acc cluster).1 = acc.1 := rfl

lemma summStep_frame (device now : String) (sha : String → String) (dry : Bool)
    (acc : Cloud × SumStats) (cluster : List RemoteMem) :
    (summStep device now sha dry acc cluster).1.memories.filter
        (fun r => !isSummaryHash r.content_hash) =
      acc.1.memories.filter (fun r => !isSummaryHash r.content_hash) := by
  unfold summStep
  cases dry with
  | true => rfl
  | false =>
    simp only [Bool.false_eq_true, if_false]
    have hch : isSummaryHash ("summary_" ++ sha (_generate_summary cluster)) = true :=
      isSummaryHash_append _
    rw [filter_map_frame]
    · refine upsertMem_filter_frame _ _ (fun h => !isSummaryHash h) ?_
      show (!isSummaryHash ("summary_" ++ sha (_generate_summary cluster))) = false
      rw [hch]
      rfl
    · intro r hr
      by_cases hc : r.content_hash = "summary_" ++ sha (_generate_summary cluster)
      · rw [hc] at hr
        rw [hch] at hr
        cases hr
      · rw [if_neg hc]
    · intro r hr
      by_cases hc : r.content_hash = "summary_" ++ sha (_generate_summary cluster)
      · rw [if_pos hc]
        show (!isSummaryHash r.content_hash) = false
        rw [hc, hch]
        rfl
      · rw [if_neg hc]
        exact hr

lemma summFold_frame (device now : String) (sha : String → String) (dry : Bool) :
    ∀ (cs : List (List RemoteMem)) (acc : Cloud × SumStats),
      ((cs.foldl (summStep device now sha dry) acc).1.memories.filter
          (fun r => !isSummaryHash r.content_hash) =
        acc.1.memories.filter (fun r => !isSummaryHash r.content_hash)) ∧
      (cs.foldl (summStep device now sha dry) acc).1.deletion_log = acc.1.deletion_log ∧
      (cs.foldl (summStep device now sha dry) acc).1.sync_state = acc.1.sync_state ∧
      (cs.foldl (summStep device now sha dry) acc).1.memory_graph = acc.1.memory_graph := by
  intro cs
  induction cs with
  | nil => intro acc; exact ⟨rfl, rfl, rfl, rfl⟩
  | cons c cs ih =>
    intro acc
    rw [List.foldl_cons]
    obtain ⟨i1, i2, i3, i4⟩ := ih (summStep device now sha dry acc c)
    exact ⟨by rw [i1, summStep_frame], by rw [i2, summStep_log],
      by rw [i3, summStep_sync], by rw [i4, summStep_graph]⟩

lemma summFold_dry (device now : String) (sha : String → String) :
    ∀ (cs : List (List RemoteMem)) (acc : Cloud × SumStats),
      (cs.foldl (summStep device now sha true) acc).1 = acc.1 := by
  intro cs
  induction cs with
  | nil => intro acc; rfl
  | cons c cs ih =>
    intro acc
    rw [List.foldl_cons, ih (summStep device now sha true acc c), summStep_dry]

/-- Claim C10: every stats dict returned by `sync_once` has
`updated_memories = 0`; the engine never distinguishes remotely-updated rows
from new ones (successful upserts are all counted in `new_memories`). -/
theorem sync_updated_memories_zero :
    ∀ (device now : String) (db : LocalDB) (cloud : Cloud) (localReadFails : Bool)
      (bad : UpsertPayload → Bool) (markFails : String → Bool),
      (sync_once device now db cloud localReadFails bad markFails).2.updated_memories = 0 := by
  intro device now db cloud localReadFails bad markFails
  simp only [sync_once]
  split
  · rfl
  · split
    · rfl
    · rfl

/-- Claim C5: `upsert_memories_batch` processes its input in chunks of 50
rows; a chunk that fails wholesale falls back to one upsert per row, so a
single malformed row cannot sink its siblings — success counts exactly the
rows the backend accepts, failure counts exactly the rejected rows, and the
two always sum to the number of input rows. The 60-row scenario with row #37
malformed yields success=59, failed=1. -/
theorem upsert_batch_counts :
    (∀ (device now : String) (bad : UpsertPayload → Bool) (mems : List MemIn)
       (cloud : Cloud),
      (upsert_memories_batch device now bad mems cloud).2.1 =
        ((mems.map (rowOf device now)).filter (fun p => !bad p)).length ∧
      (upsert_memories_batch device now bad mems cloud).2.2 =
        ((mems.map (rowOf device now)).filter bad).length ∧
      (upsert_memories_batch device now bad mems cloud).2.1 +
        (upsert_memories_batch device now bad mems cloud).2.2 = mems.length) ∧
    (upsert_memories_batch "dev" "now" witBad37 witMems60 witCloud0).2 = (59, 1) := by
  constructor
  · intro device now bad mems cloud
    obtain ⟨h1, h2⟩ := upsertChunksGo_counts bad (mems.map (rowOf device now)).length
      (mems.map (rowOf device now)) cloud.memories (le_refl _)
    have hb1 : (upsert_memories_batch device now bad mems cloud).2.1 =
        ((mems.map (rowOf device now)).filter (fun p => !bad p)).length := h1
    have hb2 : (upsert_memories_batch device now bad mems cloud).2.2 =
        ((mems.map (rowOf device now)).filter bad).length := h2
    refine ⟨hb1, hb2, ?_⟩
    rw [hb1, hb2, Nat.add_comm, filter_length_partition, List.length_map]
  · with_unfolding_all decide

/-- Claim C9: every upsert, single or batch, writes `local_deleted = false`
on the remote row — after a single upsert of hash `h` every `h`-row is
unfolded, a row for `h` exists, and after a batch every row is either
pre-existing or carries `local_deleted = false`; deletion-log entries are
never touched by upserts. In particular re-upserting a previously
tombstoned hash clears its flag. -/
theorem upsert_clears_local_deleted :
    ∀ (device now ch content : String) (tags mt : Option String)
      (md : Option Metadata) (ca ua : Option Int) (emb : Option (List ℚ))
      (cloud : Cloud) (bad : UpsertPayload → Bool) (mems : List MemIn),
      (∀ m ∈ (upsert_memory device now ch content tags mt md ca ua emb cloud).1.memories,
          m.content_hash = ch → m.local_deleted = false) ∧
      (∃ m ∈ (upsert_memory device now ch content tags mt md ca ua emb cloud).1.memories,
          m.content_hash = ch) ∧
      (upsert_memory device now ch content tags mt md ca ua emb cloud).1.deletion_log =
        cloud.deletion_log ∧
      (∀ m ∈ (upsert_memories_batch device now bad mems cloud).1.memories,
          m ∈ cloud.memories ∨ m.local_deleted = false) ∧
      (upsert_memories_batch device now bad mems cloud).1.deletion_log =
        cloud.deletion_log := by
  intro device now ch content tags mt md ca ua emb cloud bad mems
  refine ⟨?_, ?_, rfl, upsert_memories_batch_ld device now bad mems cloud, rfl⟩
  · intro m hm hh
    exact upsertMem_hash_ld cloud.memories _ m hm hh
  · obtain ⟨m, hm, hh⟩ := upsertMem_exists cloud.memories
      { content_hash := ch, content := content, tags := tags, memory_type := mt
        metadata := md.getD [], created_at := ca, updated_at := ua
        source_device := device, synced_at := now, local_deleted := false
        embedding := emb }
    exact ⟨m, hm, hh⟩

/-- Witness for C9: re-upserting the tombstoned hash `a` of `witCloudTomb`
yields a row with `local_deleted = false`. -/
theorem upsert_clears_local_deleted_witness :
    witUpsertedRow.local_deleted = false :=
  (upsert_clears_local_deleted "dev" "now" "a" "newC" none none none none none none
      witCloudTomb (fun _ => false) []).1 witUpsertedRow
    (by with_unfolding_all decide) (by with_unfolding_all decide)

/-- Claim C8: in every clustering run, every member of every output cluster
comes from the input and carries a (truthy) embedding; on duplicate-free
input no record appears in two clusters; and each cluster is a seed followed
by members absorbed solely because their cosine similarity **to the seed**
reaches the threshold. -/
theorem cluster_membership_sound :
    ∀ (ms : List RemoteMem) (t : ℚ),
      (∀ c ∈ _cluster_memories ms t, ∀ m ∈ c, m ∈ ms ∧ truthyEmb m = true) ∧
      (ms.Nodup →
        (_cluster_memories ms t).Pairwise (fun c1 c2 => ∀ m ∈ c1, m ∉ c2)) ∧
      (∀ c ∈ _cluster_memories ms t, ∃ s tl, c = s :: tl ∧
        ∀ m ∈ tl, cosSimGE (embOfMem s) (embOfMem m) t = true) := by
  intro ms t
  refine ⟨?_, ?_, ?_⟩
  · intro c hc m hm
    have hmem := clusterGo_mem_input t (ms.filter truthyEmb).length
      (ms.filter truthyEmb) c m hc hm
    exact ⟨List.mem_of_mem_filter hmem, (List.mem_filter.mp hmem).2⟩
  · intro hnd
    exact clusterGo_pairwise t (ms.filter truthyEmb).length (ms.filter truthyEmb)
      (hnd.filter truthyEmb)
  · intro c hc
    exact clusterGo_seed t (ms.filter truthyEmb).length (ms.filter truthyEmb) c hc

/-- Witness for C8: in the concrete run over `witCloud4.memories` at
threshold 3/4, record `a` of the produced cluster comes from the input and
has an embedding. -/
theorem cluster_membership_sound_witness :
    witRM "a" (some [1, 0]) 1 ∈ witCloud4.memories ∧
      truthyEmb (witRM "a" (some [1, 0]) 1) = true :=
  (cluster_membership_sound witCloud4.memories (3/4)).1 witClusterABC
    (by with_unfolding_all decide) (witRM "a" (some [1, 0]) 1)
    (by with_unfolding_all decide)

/-- Claim C7 counterexample: `summarize` called with `min_cluster_size = 4`
on four records (three mutually identical embeddings, one orthogonal) still
produces — and summarizes — a cluster of size 3: the clustering step keeps
every cluster of size ≥ 3 regardless of `min_cluster_size`, which only gates
the `total < min_cluster_size` early return. -/
theorem cluster_min_size_counterexample :
    _cluster_memories ((get_all_memories witCloud4 false).filter
        (fun m => !m.is_summary)) (3/4) = [witClusterABC] ∧
    witClusterABC.length = 3 ∧
    (summarize "dev" "now" witSha witCloud4 (3/4) 4 false).2.clusters_found = 1 ∧
    (summarize "dev" "now" witSha witCloud4 (3/4) 4 false).2.summaries_created = 1 ∧
    ¬ ((4 : Nat) ≤ witClusterABC.length) := by
  with_unfolding_all decide

/-- Claim C7 (amended): every cluster produced by the clustering step has
size ≥ 3 — the hard-coded minimum — for every threshold and input;
`min_cluster_size` does not bound cluster sizes. -/
theorem cluster_size_ge_three :
    ∀ (ms : List RemoteMem) (t : ℚ) (c : List RemoteMem),
      c ∈ _cluster_memories ms t → 3 ≤ c.length := by
  intro ms t c hc
  exact clusterGo_sizes t (ms.filter truthyEmb).length (ms.filter truthyEmb) c hc

/-- Witness for the amended C7: the concrete cluster of `witCloud4` has at
least 3 members. -/
theorem cluster_size_ge_three_witness : 3 ≤ witClusterABC.length :=
  cluster_size_ge_three ((get_all_memories witCloud4 false).filter
      (fun m => !m.is_summary)) (3/4) witClusterABC
    (by with_unfolding_all decide)

/-- Claim C2: whenever `mark_locally_deleted` succeeds and the remote row
existed at mark time (the select returned it), the deletion log afterwards
holds an entry carrying that row's pre-mark content, and the row itself is
still present, fetchable, with `local_deleted = true`; rows are never
removed, whatever the failure point; and marking a hash with no remote row
appends no log entry. -/
theorem mark_locally_deleted_preserves_content :
    ∀ (device : String) (f1 f2 f3 : Bool) (cloud : Cloud) (h reason : String),
      ((mark_locally_deleted device f1 f2 f3 cloud h reason).2 = true →
        ∀ r0, (cloud.memories.filter (fun r => r.content_hash == h)).head? = some r0 →
          (∃ e ∈ (mark_locally_deleted device f1 f2 f3 cloud h reason).1.deletion_log,
              e.content_hash = h ∧ e.original_content = r0.content) ∧
          (∃ r ∈ (mark_locally_deleted device f1 f2 f3 cloud h reason).1.memories,
              r.content_hash = h ∧ r.local_deleted = true ∧ r.content = r0.content)) ∧
      (∀ r ∈ cloud.memories,
        ∃ r2 ∈ (mark_locally_deleted device f1 f2 f3 cloud h reason).1.memories,
          r2.content_hash = r.content_hash ∧ r2.content = r.content) ∧
      ((cloud.memories.filter (fun r => r.content_hash == h)).head? = none →
        (mark_locally_deleted device f1 f2 f3 cloud h reason).1.deletion_log =
          cloud.deletion_log) := by
  intro device f1 f2 f3 cloud h reason
  unfold mark_locally_deleted
  cases f1 with
  | true =>
    refine ⟨?_, ?_, ?_⟩
    · intro hok; cases hok
    · intro r hr; exact ⟨r, hr, rfl, rfl⟩
    · intro _; trivial
  | false =>
    rcases hf : cloud.memories.filter (fun r => r.content_hash == h) with _ | ⟨a, t⟩ <;>
      simp only [hf]
    · cases f3 with
      | true =>
        refine ⟨?_, ?_, ?_⟩
        · intro hok; cases hok
        · intro r hr; exact ⟨r, hr, rfl, rfl⟩
        · intro _; trivial
      | false =>
        simp only [Bool.false_eq_true, if_false]
        refine ⟨?_, ?_, ?_⟩
        · intro _ r0 hr0
          rw [List.head?_nil] at hr0
          cases hr0
        · intro r hr
          refine ⟨if r.content_hash = h then { r with local_deleted := true } else r,
            List.mem_map_of_mem _ hr, ?_⟩
          by_cases hc : r.content_hash = h
          · rw [if_pos hc]; exact ⟨rfl, rfl⟩
          · rw [if_neg hc]; exact ⟨rfl, rfl⟩
        · intro _; trivial
    · cases f2 with
      | true =>
        refine ⟨?_, ?_, ?_⟩
        · intro hok; cases hok
        · intro r hr; exact ⟨r, hr, rfl, rfl⟩
        · intro habs; rw [List.head?_cons] at habs; cases habs
      | false =>
        cases f3 with
        | true =>
          simp only [Bool.false_eq_true, if_false, if_true]
          refine ⟨?_, ?_, ?_⟩
          · intro hok; cases hok
          · intro r hr; exact ⟨r, hr, rfl, rfl⟩
          · intro habs; rw [List.head?_cons] at habs; cases habs
        | false =>
          simp only [Bool.false_eq_true, if_false]
          have hah : a.content_hash = h := by
            have : a ∈ cloud.memories.filter (fun r => r.content_hash == h) := by
              rw [hf]; exact List.mem_cons_self a t
            simpa using (List.mem_filter.mp this).2
          have ham : a ∈ cloud.memories := by
            have : a ∈ cloud.memories.filter (fun r => r.content_hash == h) := by
              rw [hf]; exact List.mem_cons_self a t
            exact List.mem_of_mem_filter this
          refine ⟨?_, ?_, ?_⟩
          · intro _ r0 hr0
            rw [List.head?_cons, Option.some_inj] at hr0
            subst hr0
            constructor
            · refine ⟨{ content_hash := h, original_content := a.content
                        original_tags := a.tags, original_type := a.memory_type
                        original_metadata := a.metadata, reason := reason
                        device_name := device }, ?_, rfl, rfl⟩
              exact List.mem_append_right _ (List.mem_singleton_self _)
            · refine ⟨(fun r => if r.content_hash = h then
                  { r with local_deleted := true } else r) a,
                List.mem_map_of_mem _ ham, ?_, ?_, ?_⟩ <;> simp [hah]
          · intro r hr
            refine ⟨if r.content_hash = h then { r with local_deleted := true } else r,
              List.mem_map_of_mem _ hr, ?_⟩
            by_cases hc : r.content_hash = h
            · rw [if_pos hc]; exact ⟨rfl, rfl⟩
            · rw [if_neg hc]; exact ⟨rfl, rfl⟩
          · intro habs; rw [List.head?_cons] at habs; cases habs

/-- Witness for C2: marking the existing row `a` of `witCloudA` logs its
pre-deletion content and leaves the row fetchable with
`local_deleted = true`. -/
theorem mark_locally_deleted_preserves_content_witness :
    (∃ e ∈ (mark_locally_deleted "dev" false false false witCloudA "a" "local_soft_delete").1.deletion_log,
        e.content_hash = "a" ∧ e.original_content = (witRM "a" none 5).content) ∧
    (∃ r ∈ (mark_locally_deleted "dev" false false false witCloudA "a" "local_soft_delete").1.memories,
        r.content_hash = "a" ∧ r.local_deleted = true ∧ r.content = (witRM "a" none 5).content) :=
  (mark_locally_deleted_preserves_content "dev" false false false witCloudA "a"
      "local_soft_delete").1 (by with_unfolding_all decide) (witRM "a" none 5)
    (by with_unfolding_all decide)

/-- Claim C3: for every threshold, min-cluster value and dry-run flag,
`summarize` leaves every row whose identifier lacks the `summary_` prefix
exactly as it was — contents, tags and embeddings included — touches no
other remote table, and in dry-run mode persists nothing at all. -/
theorem summarize_non_destructive :
    ∀ (device now : String) (sha : String → String) (cloud : Cloud)
      (t : ℚ) (mcs : Int) (dry : Bool),
      ((summarize device now sha cloud t mcs dry).1.memories.filter
          (fun r => !isSummaryHash r.content_hash) =
        cloud.memories.filter (fun r => !isSummaryHash r.content_hash)) ∧
      (summarize device now sha cloud t mcs dry).1.deletion_log = cloud.deletion_log ∧
      (summarize device now sha cloud t mcs dry).1.sync_state = cloud.sync_state ∧
      (summarize device now sha cloud t mcs dry).1.memory_graph = cloud.memory_graph ∧
      (dry = true → (summarize device now sha cloud t mcs dry).1 = cloud) := by
  intro device now sha cloud t mcs dry
  unfold summarize
  by_cases h1 : ((get_all_memories cloud false).length : Int) < mcs
  · simp only [h1, if_true]
    exact ⟨trivial, trivial, trivial, trivial, fun _ => trivial⟩
  · simp only [h1, if_false]
    by_cases h2 : (_cluster_memories ((get_all_memories cloud false).filter
        (fun m => !m.is_summary)) t).isEmpty
    · simp only [h2, if_true]
      exact ⟨trivial, trivial, trivial, trivial, fun _ => trivial⟩
    · simp only [h2, Bool.false_eq_true, if_false]
      obtain ⟨i1, i2, i3, i4⟩ := summFold_frame device now sha dry
        (_cluster_memories ((get_all_memories cloud false).filter
          (fun m => !m.is_summary)) t) (cloud, _)
      refine ⟨i1, i2, i3, i4, ?_⟩
      intro hdry
      subst hdry
      exact summFold_dry device now sha _ _

/-- Witness for C3: a concrete dry run performs no persistence at all. -/
theorem summarize_non_destructive_witness :
    (summarize "dev" "now" witSha witCloud4 (3/4) 4 true).1 = witCloud4 :=
  (summarize_non_destructive "dev" "now" witSha witCloud4 (3/4) 4 true).2.2.2.2 rfl

/-- Claim C6: when the changed set of a cycle is empty, `sync_once` still
scans every currently-tombstoned local record — a scan that takes no
watermark — re-attempts deletion propagation for each, counts each
successful mark in `deleted_marked`, and leaves every successfully marked
hash's remote rows with `local_deleted = true`. -/
theorem sync_empty_cycle_marks_tombstones :
    ∀ (device now : String) (db : LocalDB) (cloud : Cloud)
      (bad : UpsertPayload → Bool) (markFails : String → Bool),
      _get_local_memories db.mems (get_sync_state cloud device).last_sync_updated_at = [] →
      ((sync_once device now db cloud false bad markFails).2.deleted_marked =
          ((_get_locally_deleted db.mems).filter (fun h => !markFails h)).length ∧
       (∀ h ∈ _get_locally_deleted db.mems, markFails h = false →
         ∀ r ∈ (sync_once device now db cloud false bad markFails).1.memories,
           r.content_hash = h → r.local_deleted = true)) := by
  intro device now db cloud bad markFails hemp
  have heq : sync_once device now db cloud false bad markFails =
      (update_sync_state
          ((_get_locally_deleted db.mems).foldl (syncMarkAllStep device markFails)
            (update_sync_state cloud device now
              (get_sync_state cloud device).last_sync_updated_at
              (get_sync_state cloud device).memories_synced "syncing", 0)).1
          device now (get_sync_state cloud device).last_sync_updated_at
          (get_sync_state cloud device).memories_synced "idle",
        { new_memories := 0, updated_memories := 0
          deleted_marked :=
            ((_get_locally_deleted db.mems).foldl (syncMarkAllStep device markFails)
              (update_sync_state cloud device now
                (get_sync_state cloud device).last_sync_updated_at
                (get_sync_state cloud device).memories_synced "syncing", 0)).2
          graph_edges := 0, errors := 0, duration_ms := 0, error_message := none }) := by
    simp only [sync_once, hemp, List.isEmpty_nil, Bool.false_eq_true, if_false, if_true]
  rw [heq]
  constructor
  · rw [markFold_count]
    simp
  · intro h hmem hmf r hr hh
    rw [update_sync_state_memories] at hr
    exact markFold_marks device markFails (_get_locally_deleted db.mems) _ h
      (Or.inl ⟨hmem, hmf⟩) r hr hh

/-- Witness for C6: the scenario of one tombstoned local record under a
watermark (100) past every local change: the remote row ends marked. -/
theorem sync_empty_cycle_marks_tombstones_witness :
    witMarkedRow.local_deleted = true :=
  (sync_empty_cycle_marks_tombstones "dev" "now" witDBDel witCloudA (fun _ => false)
      (fun _ => false) (by with_unfolding_all decide)).2 "a"
    (by with_unfolding_all decide) rfl witMarkedRow
    (by with_unfolding_all decide) (by with_unfolding_all decide)

/-- Claim C1 counterexample: a cycle that ends with a captured cycle-level
exception (the local-store read raising after the watermark, here 5, was
read) persists watermark 0 — strictly less than the watermark read at the
start of the cycle. -/
theorem sync_cycle_exception_resets_watermark :
    (get_sync_state witCloud5 "dev").last_sync_updated_at = 5 ∧
    (get_sync_state (sync_once "dev" "now" witDB2 witCloud5 true (fun _ => false)
        (fun _ => false)).1 "dev").last_sync_updated_at = 0 ∧
    ¬ ((5 : Int) ≤ 0) := by
  with_unfolding_all decide

/-- Claim C1 (amended): in every cycle that does not end with a captured
cycle-level exception, the persisted watermark is at least the watermark
read at the start of the cycle; an exception-terminated cycle instead
resets the persisted sync state to watermark 0. -/
theorem sync_watermark_monotone_no_exception :
    ∀ (device now : String) (db : LocalDB) (cloud : Cloud)
      (bad : UpsertPayload → Bool) (markFails : String → Bool),
      (get_sync_state cloud device).last_sync_updated_at ≤
        (get_sync_state (sync_once device now db cloud false bad markFails).1
          device).last_sync_updated_at := by
  intro device now db cloud bad markFails
  by_cases hemp : (_get_local_memories db.mems
      (get_sync_state cloud device).last_sync_updated_at).isEmpty
  · simp only [sync_once, hemp, Bool.false_eq_true, if_false, if_true]
    rw [get_update_sync_state]
  · have hemp' : (_get_local_memories db.mems
        (get_sync_state cloud device).last_sync_updated_at).isEmpty = false := by
      revert hemp
      cases (_get_local_memories db.mems
        (get_sync_state cloud device).last_sync_updated_at).isEmpty <;> simp
    simp only [sync_once, hemp', Bool.false_eq_true, if_false]
    rw [get_update_sync_state]
    show (get_sync_state cloud device).last_sync_updated_at ≤
      ((_get_local_memories db.mems
        (get_sync_state cloud device).last_sync_updated_at).foldl
        (syncBuildStep device
          (_get_local_embeddings db.embs
            ((_get_local_memories db.mems
              (get_sync_state cloud device).last_sync_updated_at).map
              (fun m => m.content_hash)))
          markFails)
        { cloud := update_sync_state cloud device now
            (get_sync_state cloud device).last_sync_updated_at
            (get_sync_state cloud device).memories_synced "syncing"
          deleted_marked := 0, batch := []
          maxUpd := (get_sync_state cloud device).last_sync_updated_at }).maxUpd
    rw [buildFold_maxUpd]
    exact foldl_max_init_le _ _

lemma prepared_ts (mems : List LocalMem) (since : Int) (h0 : 0 ≤ since) :
    ∀ m ∈ preparedRows mems since, pyTs m = changeTs m ∧ since < changeTs m := by
  intro m hm
  have hmem : m ∈ _get_local_memories mems since := List.mem_of_mem_filter hm
  have hcc : changedCond since m = true := by
    unfold _get_local_memories at hmem
    have hperm := (List.perm_insertionSort
      (fun a b => coalesceTs a ≤ coalesceTs b) (mems.filter (changedCond since))).mem_iff.mp hmem
    exact (List.mem_filter.mp hperm).2
  unfold changedCond at hcc
  cases hu : m.updated_at with
  | some u =>
    rw [hu] at hcc
    have hlt : since < u := of_decide_eq_true hcc
    have hne : u ≠ 0 := by omega
    constructor
    · unfold pyTs changeTs
      rw [hu]
      simp [hne]
    · unfold changeTs
      rw [hu]
      exact hlt
  | none =>
    rw [hu] at hcc
    cases hc : m.created_at with
    | some c =>
      rw [hc] at hcc
      have hlt : since < c := of_decide_eq_true hcc
      constructor
      · unfold pyTs changeTs
        rw [hu]
      · unfold changeTs
        rw [hu, hc]
        simpa using hlt
    | none =>
      rw [hc] at hcc
      cases hcc

/-- Claim C4: after a cycle whose prepared (non-tombstoned) changed set is
non-empty, the persisted watermark equals the maximum change-timestamp
(`updated_at`, else `created_at`) over the rows prepared for upsert — for
every backend failure pattern `bad`, i.e. not filtered by individual upsert
success — and the t=10/t=20 scenario yields watermark 20 with
`new_memories = 2`. -/
theorem sync_watermark_max_prepared :
    (∀ (device now : String) (db : LocalDB) (cloud : Cloud)
       (bad : UpsertPayload → Bool) (markFails : String → Bool),
      0 ≤ (get_sync_state cloud device).last_sync_updated_at →
      preparedRows db.mems (get_sync_state cloud device).last_sync_updated_at ≠ [] →
      ((∀ m ∈ preparedRows db.mems (get_sync_state cloud device).last_sync_updated_at,
          changeTs m ≤
            (get_sync_state (sync_once device now db cloud false bad markFails).1
              device).last_sync_updated_at) ∧
       (∃ m ∈ preparedRows db.mems (get_sync_state cloud device).last_sync_updated_at,
          (get_sync_state (sync_once device now db cloud false bad markFails).1
            device).last_sync_updated_at = changeTs m))) ∧
    ((get_sync_state (sync_once "dev" "now" witDB2 witCloud0 false (fun _ => false)
        (fun _ => false)).1 "dev").last_sync_updated_at = 20 ∧
     (sync_once "dev" "now" witDB2 witCloud0 false (fun _ => false)
        (fun _ => false)).2.new_memories = 2) := by
  constructor
  · intro device now db cloud bad markFails h0 hne
    have hempF : (_get_local_memories db.mems
        (get_sync_state cloud device).last_sync_updated_at).isEmpty = false := by
      cases hbase : _get_local_memories db.mems
          (get_sync_state cloud device).last_sync_updated_at with
      | nil =>
        exfalso
        apply hne
        unfold preparedRows
        rw [hbase]
        rfl
      | cons a t => rfl
    have hw : (get_sync_state (sync_once device now db cloud false bad markFails).1
        device).last_sync_updated_at =
        ((preparedRows db.mems
          (get_sync_state cloud device).last_sync_updated_at).map pyTs).foldl max
          (get_sync_state cloud device).last_sync_updated_at := by
      simp only [sync_once, hempF, Bool.false_eq_true, if_false]
      rw [get_update_sync_state]
      show (List.foldl (syncBuildStep device _ markFails) _ _).maxUpd = _
      rw [buildFold_maxUpd]
      rfl
    constructor
    · intro m hm
      rw [hw, ← (prepared_ts db.mems _ h0 m hm).1]
      exact foldl_max_le_of_mem _ _ _ (List.mem_map_of_mem pyTs hm)
    · rcases foldl_max_eq_init_or_mem
          ((preparedRows db.mems
            (get_sync_state cloud device).last_sync_updated_at).map pyTs)
          (get_sync_state cloud device).last_sync_updated_at with hcase | hcase
      · exfalso
        obtain ⟨m0, hm0⟩ := List.exists_mem_of_ne_nil _ hne
        have h1 := (prepared_ts db.mems _ h0 m0 hm0).2
        have h2 := foldl_max_le_of_mem
          ((preparedRows db.mems
            (get_sync_state cloud device).last_sync_updated_at).map pyTs)
          (get_sync_state cloud device).last_sync_updated_at
          (pyTs m0) (List.mem_map_of_mem pyTs hm0)
        rw [hcase, (prepared_ts db.mems _ h0 m0 hm0).1] at h2
        omega
      · obtain ⟨m, hm, hpy⟩ := List.mem_map.mp hcase
        refine ⟨m, hm, ?_⟩
        rw [hw, ← hpy, (prepared_ts db.mems _ h0 m hm).1]
  · with_unfolding_all decide

/-- Witness for C4: in the t=10/t=20 scenario, the record changed at t=20
is a prepared row and its change-timestamp bounds the persisted
watermark. -/
theorem sync_watermark_max_prepared_witness :
    changeTs (witLM "b" 20) ≤
      (get_sync_state (sync_once "dev" "now" witDB2 witCloud0 false (fun _ => false)
        (fun _ => false)).1 "dev").last_sync_updated_at :=
  ((sync_watermark_max_prepared.1 "dev" "now" witDB2 witCloud0 (fun _ => false)
      (fun _ => false)) (by with_unfolding_all decide)
    (by with_unfolding_all decide)).1 (witLM "b" 20) (by with_unfolding_all decide)

lemma normSq_nonneg (a : List ℚ) : 0 ≤ normSq a := by
  unfold normSq
  apply List.sum_nonneg
  intro x hx
  obtain ⟨y, _, hy⟩ := List.mem_map.mp hx
  rw [← hy]
  exact mul_self_nonneg y

lemma le_div_iff_sq (T D S P : ℝ) (hS : 0 < S) (hP : S ^ 2 = P) :
    (T ≤ D / S) ↔
      (if 0 ≤ T then 0 ≤ D ∧ T ^ 2 * P ≤ D ^ 2 else 0 ≤ D ∨ D ^ 2 ≤ T ^ 2 * P) := by
  have hTS2 : ∀ x : ℝ, (x * S) ^ 2 = x ^ 2 * P := by
    intro x
    rw [mul_pow, hP]
  rw [le_div_iff hS]
  by_cases ht : 0 ≤ T
  · rw [if_pos ht]
    have hTSnn : 0 ≤ T * S := mul_nonneg ht hS.le
    constructor
    · intro hle
      have hD : 0 ≤ D := le_trans hTSnn hle
      refine ⟨hD, ?_⟩
      have h1 : (T * S) ^ 2 ≤ D ^ 2 := by nlinarith
      rw [hTS2] at h1
      exact h1
    · rintro ⟨hD, hsq⟩
      by_contra hlt
      push_neg at hlt
      have h1 : D ^ 2 < (T * S) ^ 2 := by nlinarith
      rw [hTS2] at h1
      linarith
  · rw [if_neg ht]
    have htneg : T < 0 := lt_of_not_ge ht
    have hTSneg : T * S < 0 := mul_neg_of_neg_of_pos htneg hS
    constructor
    · intro hle
      by_cases hD : 0 ≤ D
      · left; exact hD
      · right
        push_neg at hD
        have h1 : D ^ 2 ≤ (T * S) ^ 2 := by nlinarith
        rw [hTS2] at h1
        exact h1
    · intro hcase
      rcases hcase with hD | hsq
      · linarith
      · by_contra hlt
        push_neg at hlt
        have h1 : (T * S) ^ 2 < D ^ 2 := by nlinarith
        rw [hTS2] at h1
        linarith

/-- Soundness of the ℚ-valued encoding `cosSimGE`: it decides exactly the
source's comparison `_cosine_similarity(a, b) >= t`, where the similarity is
`dot / (sqrt (Σx²) * sqrt (Σy²))` over the reals and 0 when either norm is
zero. -/
theorem cosSimGE_iff (a b : List ℚ) (t : ℚ) :
    cosSimGE a b t = true ↔
      (t : ℝ) ≤
        (if normSq a = 0 ∨ normSq b = 0 then (0 : ℝ)
         else ((dotQ a b : ℚ) : ℝ) /
           (Real.sqrt ((normSq a : ℚ) : ℝ) * Real.sqrt ((normSq b : ℚ) : ℝ))) := by
  by_cases hz : normSq a = 0 ∨ normSq b = 0
  · rw [if_pos hz]
    unfold cosSimGE
    rw [if_pos hz, decide_eq_true_iff]
    exact_mod_cast Iff.rfl
  · rw [if_neg hz]
    unfold cosSimGE
    rw [if_neg hz]
    push_neg at hz
    have hna : (0 : ℚ) < normSq a := lt_of_le_of_ne (normSq_nonneg a) (Ne.symm hz.1)
    have hnb : (0 : ℚ) < normSq b := lt_of_le_of_ne (normSq_nonneg b) (Ne.symm hz.2)
    have hnaR : (0 : ℝ) < ((normSq a : ℚ) : ℝ) := by exact_mod_cast hna
    have hnbR : (0 : ℝ) < ((normSq b : ℚ) : ℝ) := by exact_mod_cast hnb
    have hsa : (0 : ℝ) < Real.sqrt ((normSq a : ℚ) : ℝ) := Real.sqrt_pos.mpr hnaR
    have hsb : (0 : ℝ) < Real.sqrt ((normSq b : ℚ) : ℝ) := Real.sqrt_pos.mpr hnbR
    have hP : (Real.sqrt ((normSq a : ℚ) : ℝ) * Real.sqrt ((normSq b : ℚ) : ℝ)) ^ 2 =
        ((normSq a : ℚ) : ℝ) * ((normSq b : ℚ) : ℝ) := by
      rw [mul_pow, Real.sq_sqrt hnaR.le, Real.sq_sqrt hnbR.le]
    rw [le_div_iff_sq _ _ _ _ (mul_pos hsa hsb) hP]
    by_cases ht : 0 ≤ t
    · have htR : (0 : ℝ) ≤ (t : ℝ) := by exact_mod_cast ht
      rw [if_pos ht, if_pos htR, decide_eq_true_iff]
      constructor
      · rintro ⟨h1, h2⟩
        exact ⟨by exact_mod_cast h1, by exact_mod_cast h2⟩
      · rintro ⟨h1, h2⟩
        exact ⟨by exact_mod_cast h1, by exact_mod_cast h2⟩
    · have htR : ¬ (0 : ℝ) ≤ (t : ℝ) := by
        intro hc
        exact ht (by exact_mod_cast hc)
      rw [if_neg ht, if_neg htR, decide_eq_true_iff]
      constructor
      · rintro (h1 | h2)
        · left; exact_mod_cast h1
        · right; exact_mod_cast h2
      · rintro (h1 | h2)
        · left; exact_mod_cast h1
        · right; exact_mod_cast h2
